import Mathlib

/-!
# Verification of the tactics combat engine

Shallow embedding of the combat engine in `src/components/GameBoard.tsx`
(data model from `src/types/game.ts`, level data from `src/data/levels.ts`),
together with proofs and refutations of the specification's claims about it.

Coordinates are JavaScript numbers used as integers; we embed them as `Int`.
Unit hit points may transiently go to zero or below before the roster is
filtered, so `hp` is an `Int` as well.  The `stunned?: boolean` optional field
defaults to `false` (absent is falsy in the source).
-/

namespace Tactics

/-- `TerrainType` from `src/types/game.ts`: `'plains' | 'mountain' | 'water' | 'forest'`. -/
inductive TerrainType where
  | plains
  | mountain
  | water
  | forest
deriving DecidableEq, Repr

/-- Team tag, the `'player' | 'enemy'` union used for `Unit.team`. -/
inductive Team where
  | player
  | enemy
deriving DecidableEq, Repr

/-- `Turn` from `src/types/game.ts`: `'player' | 'enemy'`. -/
inductive Turn where
  | player
  | enemy
deriving DecidableEq, Repr

/-- The `gameState` React state of `GameBoard`: `'playing' | 'won' | 'lost'`. -/
inductive GameState where
  | playing
  | won
  | lost
deriving DecidableEq, Repr

/-- The `selectedAction` React state of `GameBoard`: `'attack' | 'shield-bash'`. -/
inductive ActionMode where
  | attack
  | shieldBash
deriving DecidableEq, Repr

/-- `Position` from `src/types/game.ts`. -/
structure Position where
  x : Int
  y : Int
deriving DecidableEq, Repr

/-- `Unit` from `src/types/game.ts`.  The optional `sprite` and
`sizeMultiplier` display fields are dropped (never read by the engine);
the optional `stunned` flag defaults to `false`. -/
structure Unit where
  id : String
  name : String
  position : Position
  hp : Int
  maxHp : Int
  moveRange : Nat
  attackRange : Nat
  damage : Int
  team : Team
  emoji : String
  stunned : Bool := false
deriving DecidableEq, Repr

/-- The bow emoji string tagging archer-kind units in the source
(compared against `unit.emoji` in `getValidMoves` and `executeShieldBash`). -/
def archerEmoji : String := "🏹"

/-- The shield emoji string tagging shieldbearer-kind units in the source. -/
def shieldEmoji : String := "🛡️"

/-- `LevelData` from `src/data/levels.ts`, restricted to the fields the engine
reads: `id`, `gridSize` and the pure terrain assignment `mapSetup`.  (`name`,
`description`, `howToPlay`, `overworldPosition`, `unlocksId` and the initial
`units` roster are either presentation data or consumed only at session
start.) -/
structure LevelData where
  id : Nat
  gridSize : Nat
  mapSetup : Int → Int → TerrainType

/-- In-bounds check used throughout `GameBoard.tsx`:
`0 <= x < GRID_SIZE && 0 <= y < GRID_SIZE`. -/
def inBounds (lvl : LevelData) (p : Position) : Prop :=
  0 ≤ p.x ∧ p.x < (lvl.gridSize : Int) ∧ 0 ≤ p.y ∧ p.y < (lvl.gridSize : Int)

instance (lvl : LevelData) (p : Position) : Decidable (inBounds lvl p) := by
  unfold inBounds; infer_instance

/-- Manhattan distance, written in the source as
`Math.abs(a.x - b.x) + Math.abs(a.y - b.y)`. -/
def mdist (a b : Position) : Nat :=
  (a.x - b.x).natAbs + (a.y - b.y).natAbs

/-- The `while (true)` body of `hasLineOfSight` (Bresenham's line algorithm),
with explicit fuel.  The loop state is `(x0, y0, err)`; `startX/startY` are the
trace's start (whose terrain is never tested), `(x1, y1)` the end point, and
`dx, dy, sx, sy` the constants computed before the loop.  Each iteration first
breaks at the end point, then tests the current cell for `mountain`, then
advances.  The fuel given by `hasLineOfSight` exceeds the `dx + dy` bound on
the iteration count, so the out-of-fuel branch is never taken. -/
def losLoop (lvl : LevelData) (startX startY x1 y1 dx dy sx sy : Int) :
    Nat → Int → Int → Int → Bool
  | 0, _, _, _ => true
  | fuel + 1, x0, y0, err =>
    if x0 = x1 ∧ y0 = y1 then true
    else if ¬(x0 = startX ∧ y0 = startY) ∧ lvl.mapSetup x0 y0 = .mountain then false
    else
      let e2 := 2 * err
      let errx := if e2 > -dy then err - dy else err
      let x0' := if e2 > -dy then x0 + sx else x0
      let erry := if e2 < dx then errx + dx else errx
      let y0' := if e2 < dx then y0 + sy else y0
      losLoop lvl startX startY x1 y1 dx dy sx sy fuel x0' y0' erry

/-- `hasLineOfSight` from `GameBoard.tsx` (lines 193–215): Bresenham line
trace from `a` to `b`, returning `false` iff some traced cell other than the
start point (the end point breaks the loop before being tested) has terrain
`mountain`.  The grid lookup `currentGrid[y0][x0].terrain` is embedded as
`lvl.mapSetup x0 y0`, which is how the grid is populated. -/
def hasLineOfSight (lvl : LevelData) (a b : Position) : Bool :=
  let dx : Int := (b.x - a.x).natAbs
  let dy : Int := (b.y - a.y).natAbs
  let sx : Int := if a.x < b.x then 1 else -1
  let sy : Int := if a.y < b.y then 1 else -1
  losLoop lvl a.x a.y b.x b.y dx dy sx sy (dx.natAbs + dy.natAbs + 1) a.x a.y (dx - dy)

/-- `mapSetup` of level 1 ("Forest Ambush") from `src/data/levels.ts`. -/
def level1MapSetup (x y : Int) : TerrainType :=
  if x = 4 ∧ y = 5 then .mountain
  else if x = 5 ∧ y = 5 then .mountain
  else if x = 4 ∧ y = 6 then .mountain
  else if x = 5 ∧ y = 6 then .mountain
  else if x = 2 ∧ y = 6 then .mountain
  else if x = 2 ∧ y = 5 then .forest
  else if x = 7 ∧ y = 6 then .mountain
  else if x = 7 ∧ y = 5 then .forest
  else if x = 1 ∧ y = 3 then .forest
  else if x = 8 ∧ y = 3 then .forest
  else if x = 5 ∧ y = 1 then .forest
  else if y = 0 then .water
  else .plains

/-- Level 1 ("Forest Ambush"): `id: 1`, `gridSize: 10`. -/
def level1 : LevelData :=
  { id := 1, gridSize := 10, mapSetup := level1MapSetup }

example : hasLineOfSight level1 ⟨1, 6⟩ ⟨3, 7⟩ = false := by decide
example : hasLineOfSight level1 ⟨3, 7⟩ ⟨1, 6⟩ = true := by decide

/-!
## Movement planner (`getValidMoves`, lines 260–327)
-/

/-- The `startsOnForest` flag of `getValidMoves` (line 265):
`unit.emoji !== '🏹' && grid[unit.position].terrain === 'forest'`
(archer-kind units are exempt from the forest-exit rule). -/
def startsOnForest (lvl : LevelData) (unit : Tactics.Unit) : Bool :=
  decide (unit.emoji ≠ archerEmoji ∧
    lvl.mapSetup unit.position.x unit.position.y = .forest)

/-- Baseline cost to enter a tile (line 290):
`tile.terrain === 'forest' ? 2 : 1`. -/
def entryCost (t : TerrainType) : Nat :=
  if t = .forest then 2 else 1

/-- Movement cost actually charged for one step (lines 289–296): the entry
cost of the destination, overridden to `2` when this is the first step
(`current.curCost === 0`) of a unit that starts on forest.  The source's
`unit.moveRange === 2` and `else` sub-branches (lines 299–314) have identical
bodies, so they collapse here. -/
def moveCost (sof : Bool) (curCost : Nat) (destTerrain : TerrainType) : Nat :=
  if curCost = 0 ∧ sof = true then 2 else entryCost destTerrain

/-- The 4-directional neighbor list, in the order the source builds it
(lines 278–283): `+x`, `-x`, `+y`, `-y`. -/
def neighbors (p : Position) : List Position :=
  [⟨p.x + 1, p.y⟩, ⟨p.x - 1, p.y⟩, ⟨p.x, p.y + 1⟩, ⟨p.x, p.y - 1⟩]

/-- The body of the neighbor `forEach` of one BFS dequeue (lines 283–324):
skip out-of-bounds, `water`, `mountain` and occupied tiles, then admit an
unvisited neighbor when the accumulated cost stays within `unit.moveRange`.
The accumulator carries the visited set and the nodes to append to the queue
(the source pushes them directly onto the FIFO queue, which appends). -/
def scanStep (lvl : LevelData) (unit : Tactics.Unit) (units : List Tactics.Unit)
    (sof : Bool) (cur : Position × Nat)
    (acc : List Position × List (Position × Nat)) (n : Position) :
    List Position × List (Position × Nat) :=
  if ¬ inBounds lvl n then acc
  else if lvl.mapSetup n.x n.y = .water ∨ lvl.mapSetup n.x n.y = .mountain
          ∨ units.any (fun u => decide (u.position = n)) then acc
  else
    let cost := moveCost sof cur.2 (lvl.mapSetup n.x n.y)
    if cur.2 + cost ≤ unit.moveRange ∧ n ∉ acc.1 then
      (acc.1 ++ [n], acc.2 ++ [(n, cur.2 + cost)])
    else acc

/-- The neighbor scan of one dequeue, folding `scanStep` over the four
neighbors starting from the current visited set and no queued additions. -/
def scanNeighbors (lvl : LevelData) (unit : Tactics.Unit) (units : List Tactics.Unit)
    (sof : Bool) (cur : Position × Nat) (visited : List Position) :
    List Position × List (Position × Nat) :=
  (neighbors cur.1).foldl (scanStep lvl unit units sof cur) (visited, [])

/-- The BFS `while (queue.length > 0)` loop of `getValidMoves`, with explicit
fuel.  `valid` accumulates each dequeued node with positive accumulated cost,
keeping the cost alongside the position (the source records only the
position; `getValidMoves` projects it away).  Every enqueued node is
simultaneously added to `visited`, and only unvisited in-bounds cells are
enqueued, so the loop runs at most `gridSize² + 1` iterations; the fuel
passed by `getValidMovesCosted` exceeds that, so the out-of-fuel branch is
never taken. -/
def getValidMovesAux (lvl : LevelData) (unit : Tactics.Unit)
    (units : List Tactics.Unit) (sof : Bool) :
    Nat → List (Position × Nat) → List Position → List (Position × Nat) →
    List (Position × Nat)
  | 0, _, _, valid => valid
  | _ + 1, [], _, valid => valid
  | fuel + 1, cur :: queue, visited, valid =>
    let valid' := if 0 < cur.2 then valid ++ [cur] else valid
    let step := scanNeighbors lvl unit units sof cur visited
    getValidMovesAux lvl unit units sof fuel (queue ++ step.2) step.1 valid'

/-- `getValidMoves` (lines 260–327) with the accumulated entry cost of each
returned cell kept in the result.  Stunned units get no moves; the BFS
starts from the unit's own cell at cost `0` with that cell pre-visited. -/
def getValidMovesCosted (lvl : LevelData) (unit : Tactics.Unit)
    (units : List Tactics.Unit) : List (Position × Nat) :=
  if unit.stunned then []
  else
    getValidMovesAux lvl unit units (startsOnForest lvl unit)
      (lvl.gridSize * lvl.gridSize + 2)
      [(unit.position, 0)] [unit.position] []

/-- `getValidMoves` as the source returns it: the list of reachable cells. -/
def getValidMoves (lvl : LevelData) (unit : Tactics.Unit)
    (units : List Tactics.Unit) : List Position :=
  (getValidMovesCosted lvl unit units).map Prod.fst

/-!
## Targeting (`getValidTargets`, lines 329–341)
-/

/-- `getValidTargets`: cells of opposing-team units within Manhattan distance
`attacker.attackRange` and with line of sight from the attacker. -/
def getValidTargets (lvl : LevelData) (attacker : Tactics.Unit)
    (allUnits : List Tactics.Unit) : List Position :=
  allUnits.foldl (fun targets t =>
    if t.team = attacker.team then targets
    else if mdist attacker.position t.position ≤ attacker.attackRange
            ∧ hasLineOfSight lvl attacker.position t.position = true then
      targets ++ [t.position]
    else targets) []

/-!
## Combat resolver (`executeAttack` and `executeShieldBash`)
-/

/-- The roster filter applied on every combat exit path:
`.filter(u => u.hp > 0)`. -/
def keepAlive (us : List Tactics.Unit) : List Tactics.Unit :=
  us.filter (fun u => 0 < u.hp)

/-- The roster update of `executeAttack` (line 369): the target loses
`attacker.damage` HP and units at `hp ≤ 0` are dropped. -/
def executeAttackUnits (attacker target : Tactics.Unit)
    (prev : List Tactics.Unit) : List Tactics.Unit :=
  keepAlive (prev.map (fun u =>
    if u.id = target.id then { u with hp := u.hp - attacker.damage } else u))

/-- `Math.sign`. -/
def sign (n : Int) : Int :=
  if 0 < n then 1 else if n < 0 then -1 else 0

/-- `getKnockbackPath` (lines 390–403): the two cells stepped through from
`start` toward `finish`, using the component-wise sign of the displacement. -/
def getKnockbackPath (start finish : Position) : List Position :=
  let dx := sign (finish.x - start.x)
  let dy := sign (finish.y - start.y)
  [⟨start.x + dx, start.y + dy⟩, ⟨start.x + dx * 2, start.y + dy * 2⟩]

/-- `getPositionBeforeCollision` (lines 428–434): steps one cell back from
the collision point along the raw displacement `(dx, dy)` (the `_start`
parameter of the source is unused). -/
def getPositionBeforeCollision (collisionPoint : Position) (dx dy : Int) : Position :=
  ⟨collisionPoint.x - dx, collisionPoint.y - dy⟩

/-- Result of a shield-bash resolution: the updated roster and whether the
resolver itself issued `setCurrentTurn('enemy')` (the stun short-circuit). -/
structure BashOutcome where
  units : List Tactics.Unit
  endedTurn : Bool
deriving DecidableEq, Repr

/-- The shield-bash collision predicate scanned over the knockback path
(lines 485–499): another unit on the cell, or `mountain` terrain there. -/
def bashCollides (lvl : LevelData) (targetId : String)
    (prev : List Tactics.Unit) (pos : Position) : Bool :=
  prev.any (fun u => decide (u.id ≠ targetId ∧ u.position = pos))
    || decide (lvl.mapSetup pos.x pos.y = .mountain)

/-- The raw `dx` of a bash (line 440): `target.position.x - attacker.position.x`. -/
def bashDx (attacker target : Tactics.Unit) : Int :=
  target.position.x - attacker.position.x

/-- The raw `dy` of a bash (line 441). -/
def bashDy (attacker target : Tactics.Unit) : Int :=
  target.position.y - attacker.position.y

/-- The bash push destination `pushPos` (line 443): two raw displacement
steps beyond the target. -/
def bashPushPos (attacker target : Tactics.Unit) : Position :=
  ⟨target.position.x + bashDx attacker target * 2,
   target.position.y + bashDy attacker target * 2⟩

/-- The knockback path scanned for collisions (line 476). -/
def bashPath (attacker target : Tactics.Unit) : List Position :=
  getKnockbackPath target.position (bashPushPos attacker target)

/-- The secondary-knockback destination of a struck unit in a generic
unit-vs-unit collision (lines 571–574): two raw displacement steps beyond
the collision point. -/
def bashSecondaryPos (attacker target : Tactics.Unit) (collisionPoint : Position) :
    Position :=
  ⟨collisionPoint.x + bashDx attacker target * 2,
   collisionPoint.y + bashDy attacker target * 2⟩

/-- `executeShieldBash` (lines 436–654), as the pure state update performed
inside its `setUnits` call, together with the `setCurrentTurn('enemy')`
side effect.  The displacement `(dx, dy)` is the raw difference of the
target's and attacker's positions; the push destination is two raw steps
beyond the target.  The final destination's bounds are checked before the
path is scanned for collisions.  The two `prev[...]?` fallback arms mirror
array accesses the source performs only at indices `findIndex` produced, so
they are unreachable. -/
def executeShieldBash (lvl : LevelData) (attacker target : Tactics.Unit)
    (prev : List Tactics.Unit) : BashOutcome :=
  let dx := bashDx attacker target
  let dy := bashDy attacker target
  let pushPos : Position := bashPushPos attacker target
  match prev.findIdx? (fun u => decide (u.id = target.id)) with
  | none => ⟨keepAlive prev, false⟩
  | some targetIndex =>
    match prev[targetIndex]? with
    | none => ⟨keepAlive prev, false⟩
    | some targetUnit =>
      if targetUnit.hp ≤ 0 then ⟨keepAlive prev, false⟩
      else if ¬ inBounds lvl pushPos then
        ⟨keepAlive (prev.eraseIdx targetIndex), false⟩
      else
        match (bashPath attacker target).find?
            (bashCollides lvl target.id prev) with
        | some collisionPoint =>
          if lvl.mapSetup collisionPoint.x collisionPoint.y = .mountain then
            ⟨keepAlive (prev.set targetIndex
              { targetUnit with hp := targetUnit.hp - 1,
                                position := collisionPoint, stunned := true }), true⟩
          else
            match prev.findIdx? (fun u =>
                decide (u.position = collisionPoint ∧ u.id ≠ target.id)) with
            | some hitUnitIndex =>
              match prev[hitUnitIndex]? with
              | none => ⟨keepAlive prev, false⟩
              | some hitUnit =>
                if target.emoji = shieldEmoji ∧ hitUnit.emoji = archerEmoji then
                  ⟨keepAlive ((prev.set targetIndex
                    { targetUnit with hp := targetUnit.hp - 1,
                                      position := hitUnit.position,
                                      stunned := true }).eraseIdx hitUnitIndex), true⟩
                else if hitUnit.emoji = shieldEmoji ∧ target.emoji = archerEmoji then
                  ⟨keepAlive ((prev.set targetIndex
                    { targetUnit with hp := targetUnit.hp - 1,
                                      position := hitUnit.position,
                                      stunned := true }).eraseIdx hitUnitIndex), true⟩
                else
                  let hitUnitKnockbackPos : Position :=
                    bashSecondaryPos attacker target collisionPoint
                  let base := prev.set targetIndex
                    { targetUnit with hp := targetUnit.hp - 1,
                                      position := hitUnit.position, stunned := true }
                  if ¬ inBounds lvl hitUnitKnockbackPos
                      ∨ lvl.mapSetup hitUnitKnockbackPos.x hitUnitKnockbackPos.y
                          = .water then
                    ⟨keepAlive (base.eraseIdx hitUnitIndex), true⟩
                  else
                    ⟨keepAlive (base.set hitUnitIndex
                      { hitUnit with hp := hitUnit.hp - 1,
                                     position := hitUnitKnockbackPos }), true⟩
            | none =>
              ⟨keepAlive (prev.set targetIndex
                { targetUnit with hp := targetUnit.hp - 1,
                                  position := getPositionBeforeCollision
                                    collisionPoint dx dy }), false⟩
        | none =>
          if lvl.mapSetup pushPos.x pushPos.y = .water then
            ⟨keepAlive (prev.eraseIdx targetIndex), false⟩
          else if lvl.mapSetup pushPos.x pushPos.y = .mountain then
            ⟨keepAlive (prev.set targetIndex
              { targetUnit with hp := targetUnit.hp - 1,
                                position := pushPos, stunned := true }), true⟩
          else
            ⟨keepAlive (prev.set targetIndex
              { targetUnit with hp := targetUnit.hp - 1, position := pushPos }),
             false⟩

/-!
## Enemy phase (the AI `useEffect`, lines 657–708)
-/

/-- The comparison the enemy phase sorts by (lines 665–669): ascending
Manhattan distance to the player, computed once at the start of the phase.
The source's in-place `Array.prototype.sort` with comparator
`distA - distB` is a stable ascending sort; `List.insertionSort` is the
same stable sort. -/
def closerToPlayer (player : Tactics.Unit) (a b : Tactics.Unit) : Prop :=
  mdist a.position player.position ≤ mdist b.position player.position

instance (player a b : Tactics.Unit) : Decidable (closerToPlayer player a b) := by
  unfold closerToPlayer; infer_instance

/-- The enemy snapshot of the phase, distance-sorted (lines 660, 665–669). -/
def sortedEnemies (player : Tactics.Unit) (units : List Tactics.Unit) :
    List Tactics.Unit :=
  (units.filter (fun u => decide (u.team = Team.enemy))).insertionSort
    (closerToPlayer player)

/-- The destination-choosing fold of the AI movement step (lines 677–685):
start from the enemy's own position at `Infinity` (`none`), and take each
unblocked reachable cell whose `|distance_to_player − attackRange|` is
strictly smaller than the best so far.  Blocking is tested against the
evolving `newUnits` roster. -/
def chooseMoveStep (player enemy : Tactics.Unit) (newUnits : List Tactics.Unit)
    (acc : Position × Option Nat) (pos : Position) : Position × Option Nat :=
  if newUnits.any (fun u => decide (u.position = pos ∧ u.id ≠ enemy.id)) then acc
  else
    let diff := ((mdist pos player.position : Int) - (enemy.attackRange : Int)).natAbs
    match acc.2 with
    | none => (pos, some diff)
    | some m => if diff < m then (pos, some diff) else acc

/-- The fold of `chooseMoveStep` over the reachable cells, started from the
enemy's own position at `Infinity`. -/
def chooseMove (player enemy : Tactics.Unit) (moves : List Position)
    (newUnits : List Tactics.Unit) : Position :=
  (moves.foldl (chooseMoveStep player enemy newUnits) (enemy.position, none)).1

/-- The movement pass of the enemy phase (lines 670–688): for each
non-stunned enemy, in sorted order, that is out of attack range of the
player or lacks line of sight, compute its reachable cells against the
phase-start roster snapshot (`units`, closed over by `getValidMoves`) and
move it to the chosen cell in the evolving roster. -/
def aiMoveStep (lvl : LevelData) (player : Tactics.Unit)
    (origUnits : List Tactics.Unit) (newUnits : List Tactics.Unit)
    (enemy : Tactics.Unit) : List Tactics.Unit :=
  if enemy.stunned then newUnits
  else if enemy.attackRange < mdist enemy.position player.position
          ∨ hasLineOfSight lvl enemy.position player.position = false then
    let moves := getValidMoves lvl enemy origUnits
    let bestMove := chooseMove player enemy moves newUnits
    newUnits.map (fun u => if u.id = enemy.id then { u with position := bestMove } else u)
  else newUnits

/-- The movement pass proper: fold `aiMoveStep` over the sorted enemies,
starting from the phase-start roster. -/
def aiMovePhase (lvl : LevelData) (player : Tactics.Unit)
    (origUnits : List Tactics.Unit) (enemies : List Tactics.Unit) :
    List Tactics.Unit :=
  enemies.foldl (aiMoveStep lvl player origUnits) origUnits

/-- The `const updated = newUnits.find(u => u.id === enemy.id)!` lookup of
the attack pass (line 693): an enemy's post-movement record.  The source's
non-null assertion always succeeds since the movement pass preserves ids, so
the `getD` default is never used. -/
def postMove (newUnits : List Tactics.Unit) (enemy : Tactics.Unit) : Tactics.Unit :=
  (newUnits.find? (fun u => decide (u.id = enemy.id))).getD enemy

/-- The attack pass of the enemy phase (lines 689–701): fold the same sorted
enemy list over the accumulating `playerHp`, subtracting the damage of each
non-stunned enemy whose post-movement position is within range and has line
of sight to the player. -/
def aiAttackPhase (lvl : LevelData) (player : Tactics.Unit)
    (newUnits : List Tactics.Unit) (enemies : List Tactics.Unit) : Int :=
  enemies.foldl (fun playerHp enemy =>
    if enemy.stunned then playerHp
    else
      let updated := postMove newUnits enemy
      if mdist updated.position player.position ≤ updated.attackRange
          ∧ hasLineOfSight lvl updated.position player.position = true then
        playerHp - updated.damage
      else playerHp) player.hp

/-- The roster update of one enemy phase (lines 660–703): when there is at
least one enemy and a player unit, run the movement pass then the attack
pass over the same distance-sorted snapshot, write the accumulated HP into
the player unit, and drop units at `hp ≤ 0`; otherwise the roster is
untouched. -/
def enemyPhaseUnits (lvl : LevelData) (units : List Tactics.Unit) :
    List Tactics.Unit :=
  let enemies := units.filter (fun u => decide (u.team = Team.enemy))
  match units.find? (fun u => decide (u.team = Team.player)) with
  | none => units
  | some player =>
    if enemies.isEmpty then units
    else
      let sorted := enemies.insertionSort (closerToPlayer player)
      let newUnits := aiMovePhase lvl player units sorted
      let playerHp := aiAttackPhase lvl player newUnits sorted
      keepAlive (newUnits.map (fun u =>
        if u.team = Team.player then { u with hp := playerHp } else u))

/-!
## Turn controller state and command surface
-/

/-- The engine-relevant React state of the `GameBoard` component: the live
roster, selection, cached reachable cells and targets, turn, action mode
and session outcome.  (Animation, audio, hover and modal state are
presentation-only and omitted.) -/
structure EngineState where
  units : List Tactics.Unit
  selectedUnitId : Option String
  validMoves : List Position
  currentTurn : Turn
  hasMoved : Bool
  validTargets : List Position
  selectedAction : ActionMode
  gameState : GameState
deriving DecidableEq, Repr

/-- The enemy-AI `useEffect` (lines 657–708) as a state transition: it fires
only when `currentTurn === 'enemy' && gameState === 'playing'`, updates the
roster through `enemyPhaseUnits` and hands the turn back to the player;
otherwise the state is untouched. -/
def enemyPhase (lvl : LevelData) (st : EngineState) : EngineState :=
  if st.currentTurn = Turn.enemy ∧ st.gameState = GameState.playing then
    { st with units := enemyPhaseUnits lvl st.units, currentTurn := Turn.player }
  else st

/-- The win/loss `useEffect` (lines 233–249): inert once the outcome is
terminal; otherwise `lost` when no player unit remains, `won` when no enemy
remains. -/
def checkWinLoss (st : EngineState) : EngineState :=
  if st.gameState ≠ GameState.playing then st
  else if ¬ st.units.any (fun u => decide (u.team = Team.player)) then
    { st with gameState := GameState.lost }
  else if (st.units.filter (fun u => decide (u.team = Team.enemy))).isEmpty then
    { st with gameState := GameState.won }
  else st

/-- The action-mode reset applied after an attack resolves (line 729):
level 2 ("Mountain Pass") pins the bash, other levels reset to the sword. -/
def resetAction (lvl : LevelData) : ActionMode :=
  if lvl.id = 2 then ActionMode.shieldBash else ActionMode.attack

/-- The unit shown on a tile: the grid is rebuilt from the roster by the
effect at lines 218–230, each tile holding `units.find(...)` for its cell. -/
def tileUnitAt (units : List Tactics.Unit) (p : Position) : Option Tactics.Unit :=
  units.find? (fun u => decide (u.position = p))

/-- `handleTileClick` (lines 710–768) as a state transition on a click at
cell `p`.  The attack branch folds in the 800 ms timeout that clears the
selection and passes the turn (lines 724–731); the move branch's
`newUnits.find(...)!` non-null assertion is modelled by leaving the state
unchanged when the lookup fails (the source would crash there).  Note the
handler is gated only on `currentTurn`, not on `gameState`. -/
def handleTileClick (lvl : LevelData) (st : EngineState) (p : Position) :
    EngineState :=
  if st.currentTurn ≠ Turn.player then st
  else
    let tileUnit := tileUnitAt st.units p
    let selectedUnit := st.selectedUnitId.bind
      (fun sid => st.units.find? (fun u => decide (u.id = sid)))
    if selectedUnit.isSome ∧ st.hasMoved then
      match selectedUnit, tileUnit with
      | some su, some tu =>
        if p ∈ st.validTargets ∧ tu.team = Team.enemy then
          let units' :=
            if st.selectedAction = ActionMode.shieldBash then
              (executeShieldBash lvl su tu st.units).units
            else executeAttackUnits su tu st.units
          { st with units := units', hasMoved := false, validTargets := [],
                    selectedUnitId := none, selectedAction := resetAction lvl,
                    currentTurn := Turn.enemy }
        else st
      | _, _ => st
    else if st.selectedUnitId.isSome ∧ st.hasMoved = false ∧ p ∈ st.validMoves then
      let newUnits := st.units.map (fun u =>
        if st.selectedUnitId = some u.id then { u with position := p } else u)
      match newUnits.find? (fun u => decide (st.selectedUnitId = some u.id)) with
      | none => st
      | some movedUnit =>
        let targets := getValidTargets lvl movedUnit newUnits
        if targets.isEmpty then
          { st with units := newUnits, validMoves := [], selectedUnitId := none,
                    currentTurn := Turn.enemy }
        else
          { st with units := newUnits, validMoves := [], hasMoved := true,
                    validTargets := targets }
    else
      match tileUnit with
      | some tu =>
        if st.hasMoved = false ∧ tu.team = Team.player then
          if tu.stunned then
            { st with selectedUnitId := none, validMoves := [] }
          else
            { st with selectedUnitId := some tu.id,
                      validMoves := getValidMoves lvl tu st.units }
        else if st.hasMoved = false then
          { st with selectedUnitId := none, validMoves := [] }
        else st
      | none =>
        if st.hasMoved = false then
          { st with selectedUnitId := none, validMoves := [] }
        else st

/-!
## Concrete levels and rosters used by witnesses and counterexamples
-/

/-- An all-plains test level of the given grid size. -/
def flatLevel (n : Nat) : LevelData :=
  { id := 9, gridSize := n, mapSetup := fun _ _ => .plains }

/-- A default unit record; witnesses override the relevant fields. -/
def mkUnit (id : String) (team : Team) (emoji : String) (p : Position) (hp : Int) :
    Tactics.Unit :=
  { id := id, name := id, position := p, hp := hp, maxHp := hp, moveRange := 2,
    attackRange := 1, damage := 1, team := team, emoji := emoji }

section SanityChecks

/-- Scenario B sanity check: a level whose cell `(7,5)` is water. -/
def waterAt75 : LevelData :=
  { id := 9, gridSize := 10,
    mapSetup := fun x y => if x = 7 ∧ y = 5 then .water else .plains }

example :
    executeShieldBash waterAt75
      (mkUnit "hero" .player shieldEmoji ⟨4, 5⟩ 1)
      (mkUnit "sb" .enemy shieldEmoji ⟨5, 5⟩ 50)
      [mkUnit "hero" .player shieldEmoji ⟨4, 5⟩ 1,
       mkUnit "sb" .enemy shieldEmoji ⟨5, 5⟩ 50] =
    ⟨[mkUnit "hero" .player shieldEmoji ⟨4, 5⟩ 1], false⟩ := by decide

/-- Scenario C sanity check: a level whose cell `(6,5)` is mountain. -/
def mountainAt65 : LevelData :=
  { id := 9, gridSize := 10,
    mapSetup := fun x y => if x = 6 ∧ y = 5 then .mountain else .plains }

example :
    executeShieldBash mountainAt65
      (mkUnit "hero" .player shieldEmoji ⟨4, 5⟩ 1)
      (mkUnit "sb" .enemy shieldEmoji ⟨5, 5⟩ 50)
      [mkUnit "hero" .player shieldEmoji ⟨4, 5⟩ 1,
       mkUnit "sb" .enemy shieldEmoji ⟨5, 5⟩ 50] =
    ⟨[mkUnit "hero" .player shieldEmoji ⟨4, 5⟩ 1,
      { mkUnit "sb" .enemy shieldEmoji ⟨6, 5⟩ 49 with maxHp := 50, stunned := true }],
     true⟩ := by decide

end SanityChecks

/-!
## Helper lemmas
-/

lemma mem_keepAlive {us : List Tactics.Unit} {u : Tactics.Unit} :
    u ∈ keepAlive us ↔ u ∈ us ∧ 0 < u.hp := by
  unfold keepAlive
  simp [List.mem_filter]

lemma keepAlive_subset (us : List Tactics.Unit) : keepAlive us ⊆ us :=
  List.filter_subset' us

lemma mem_of_getElem?_eq_some {l : List Tactics.Unit} {i : Nat} {a : Tactics.Unit}
    (h : l[i]? = some a) : a ∈ l := by
  obtain ⟨h1, h2⟩ := List.getElem?_eq_some.mp h
  exact h2 ▸ List.getElem_mem h1

lemma mem_eraseIdx_subset {l : List Tactics.Unit} {i : Nat} :
    l.eraseIdx i ⊆ l :=
  (List.eraseIdx_sublist l i).subset

/-- The units in the live roster are in bounds and never on `water`. -/
def WaterSafe (lvl : LevelData) (us : List Tactics.Unit) : Prop :=
  ∀ u ∈ us, inBounds lvl u.position ∧
    lvl.mapSetup u.position.x u.position.y ≠ .water

instance (lvl : LevelData) (us : List Tactics.Unit) : Decidable (WaterSafe lvl us) := by
  unfold WaterSafe; infer_instance

lemma WaterSafe.mono {lvl : LevelData} {us vs : List Tactics.Unit}
    (hsub : vs ⊆ us) (h : WaterSafe lvl us) : WaterSafe lvl vs :=
  fun u hu => h u (hsub hu)

/-- `Math.sign (d * 2) = Math.sign d`. -/
lemma sign_two_mul (d : Int) : sign (d * 2) = sign d := by
  unfold sign
  split_ifs <;> omega

/-- Bounds for a cell at most two signed steps from `x`, given that both `x`
and the two-raw-step destination `x + d * 2` are within `[0, N)`. -/
lemma sign_step_bound (d x N k : Int) (hk : 0 ≤ k ∧ k ≤ 2)
    (h0 : 0 ≤ x) (h1 : x < N) (h2 : 0 ≤ x + d * 2) (h3 : x + d * 2 < N) :
    0 ≤ x + sign d * k ∧ x + sign d * k < N := by
  unfold sign
  split_ifs <;> omega

/-- Every cell of the bash knockback path lies in bounds as soon as the
target's cell and the push destination do. -/
lemma bashPath_inBounds {lvl : LevelData} {attacker target : Tactics.Unit}
    {q : Position} (ht : inBounds lvl target.position)
    (hp : inBounds lvl (bashPushPos attacker target))
    (hq : q ∈ bashPath attacker target) : inBounds lvl q := by
  obtain ⟨ht0, ht1, ht2, ht3⟩ := ht
  obtain ⟨hp0, hp1, hp2, hp3⟩ := hp
  simp only [bashPushPos] at hp0 hp1 hp2 hp3
  simp only [bashPath, getKnockbackPath, bashPushPos, List.mem_cons,
    List.mem_singleton, List.not_mem_nil, or_false] at hq
  have ex : target.position.x + bashDx attacker target * 2 - target.position.x
      = bashDx attacker target * 2 := by ring
  have ey : target.position.y + bashDy attacker target * 2 - target.position.y
      = bashDy attacker target * 2 := by ring
  have hx1 := sign_step_bound (bashDx attacker target) target.position.x
    lvl.gridSize 1 ⟨by omega, by omega⟩ ht0 ht1 hp0 hp1
  have hx2 := sign_step_bound (bashDx attacker target) target.position.x
    lvl.gridSize 2 ⟨by omega, by omega⟩ ht0 ht1 hp0 hp1
  have hy1 := sign_step_bound (bashDy attacker target) target.position.y
    lvl.gridSize 1 ⟨by omega, by omega⟩ ht2 ht3 hp2 hp3
  have hy2 := sign_step_bound (bashDy attacker target) target.position.y
    lvl.gridSize 2 ⟨by omega, by omega⟩ ht2 ht3 hp2 hp3
  rcases hq with hq | hq <;> subst hq <;>
    (dsimp only [inBounds]
     simp only [ex, ey, sign_two_mul]
     omega)

/-- Shield-bash resolution preserves the bounds/no-water roster invariant:
every surviving unit is in bounds and off water (a unit can, however, come
to rest on a mountain cell).  The hypothesis `target ∈ prev` says the pushed
unit is on the roster, which is how `handleTileClick` invokes the resolver. -/
lemma executeShieldBash_waterSafe {lvl : LevelData} {attacker target : Tactics.Unit}
    {prev : List Tactics.Unit} (htm : target ∈ prev) (hws : WaterSafe lvl prev) :
    WaterSafe lvl (executeShieldBash lvl attacker target prev).units := by
  have hkeep : ∀ us : List Tactics.Unit, us ⊆ prev → WaterSafe lvl (keepAlive us) :=
    fun us hsub => WaterSafe.mono (fun x hx => hsub ((keepAlive_subset us) hx)) hws
  have htb : inBounds lvl target.position := (hws target htm).1
  simp only [executeShieldBash]
  split
  · exact hkeep prev fun _ h => h
  next targetIndex hti =>
    split
    · exact hkeep prev fun _ h => h
    next targetUnit hgetT =>
      split
      · exact hkeep prev fun _ h => h
      next hhp =>
        split
        · exact hkeep _ mem_eraseIdx_subset
        next hib =>
          have hibp : inBounds lvl (bashPushPos attacker target) := not_not.mp hib
          split
          next collisionPoint hcp =>
            have hcpb : inBounds lvl collisionPoint :=
              bashPath_inBounds htb hibp (List.mem_of_find?_eq_some hcp)
            split
            next hmtn =>
              intro u hu
              obtain ⟨humem, _⟩ := mem_keepAlive.mp hu
              rcases List.mem_or_eq_of_mem_set humem with h | h
              · exact hws u h
              · subst h
                exact ⟨hcpb, by simp [hmtn]⟩
            next hnm =>
              split
              next hitUnitIndex hhi =>
                split
                · exact hkeep prev fun _ h => h
                next hitUnit hgetH =>
                  have hhm : hitUnit ∈ prev := mem_of_getElem?_eq_some hgetH
                  split
                  next hpair =>
                    intro u hu
                    obtain ⟨humem, _⟩ := mem_keepAlive.mp hu
                    rcases List.mem_or_eq_of_mem_set (mem_eraseIdx_subset humem) with h | h
                    · exact hws u h
                    · subst h; exact hws hitUnit hhm
                  next hpair1 =>
                    split
                    next hpair =>
                      intro u hu
                      obtain ⟨humem, _⟩ := mem_keepAlive.mp hu
                      rcases List.mem_or_eq_of_mem_set (mem_eraseIdx_subset humem) with h | h
                      · exact hws u h
                      · subst h; exact hws hitUnit hhm
                    next hpair2 =>
                      split
                      next hgone =>
                        intro u hu
                        obtain ⟨humem, _⟩ := mem_keepAlive.mp hu
                        rcases List.mem_or_eq_of_mem_set (mem_eraseIdx_subset humem) with h | h
                        · exact hws u h
                        · subst h; exact hws hitUnit hhm
                      next hstay =>
                        push_neg at hstay
                        intro u hu
                        obtain ⟨humem, _⟩ := mem_keepAlive.mp hu
                        rcases List.mem_or_eq_of_mem_set humem with h | h
                        · rcases List.mem_or_eq_of_mem_set h with h2 | h2
                          · exact hws u h2
                          · subst h2; exact hws hitUnit hhm
                        · subst h; exact ⟨hstay.1, hstay.2⟩
              next hnone =>
                exfalso
                have hcoll := List.find?_some hcp
                simp only [bashCollides, Bool.or_eq_true, decide_eq_true_eq] at hcoll
                rcases hcoll with hany | hmt
                · obtain ⟨u, humem, hu⟩ := List.any_eq_true.mp hany
                  simp only [decide_eq_true_eq] at hu
                  have hfalse := (List.findIdx?_eq_none_iff.mp hnone) u humem
                  simp only [decide_eq_false_iff_not] at hfalse
                  exact hfalse ⟨hu.2, hu.1⟩
                · exact hnm hmt
          next hnc =>
            split
            · exact hkeep _ mem_eraseIdx_subset
            next hnw =>
              split
              next hmt2 =>
                intro u hu
                obtain ⟨humem, _⟩ := mem_keepAlive.mp hu
                rcases List.mem_or_eq_of_mem_set humem with h | h
                · exact hws u h
                · subst h; exact ⟨hibp, by simp [hmt2]⟩
              next hnm2 =>
                intro u hu
                obtain ⟨humem, _⟩ := mem_keepAlive.mp hu
                rcases List.mem_or_eq_of_mem_set humem with h | h
                · exact hws u h
                · subst h; exact ⟨hibp, hnw⟩

/-- What the movement planner guarantees about a returned cell: in bounds,
neither water nor mountain, unoccupied by any unit, and distinct from the
moving unit's own `start` cell. -/
def GoodCell (lvl : LevelData) (units : List Tactics.Unit) (start p : Position) : Prop :=
  inBounds lvl p ∧ lvl.mapSetup p.x p.y ≠ .water ∧
    lvl.mapSetup p.x p.y ≠ .mountain ∧ (∀ u ∈ units, u.position ≠ p) ∧ p ≠ start

/-- The per-step movement cost is at least 1. -/
lemma one_le_moveCost (sof : Bool) (c : Nat) (t : TerrainType) :
    1 ≤ moveCost sof c t := by
  unfold moveCost entryCost
  split_ifs <;> omega

/-- Invariant of the BFS queue-and-valid accumulators. -/
def NodeOk (lvl : LevelData) (unit : Tactics.Unit) (units : List Tactics.Unit)
    (start : Position) (x : Position × Nat) : Prop :=
  GoodCell lvl units start x.1 ∧ x.2 ≤ unit.moveRange ∧ 0 < x.2

lemma scanStep_inv (lvl : LevelData) (unit : Tactics.Unit)
    (units : List Tactics.Unit) (sof : Bool) (cur : Position × Nat)
    (start : Position) (acc : List Position × List (Position × Nat)) (n : Position)
    (hstart : start ∈ acc.1)
    (hq : ∀ x ∈ acc.2, NodeOk lvl unit units start x) :
    start ∈ (scanStep lvl unit units sof cur acc n).1 ∧
      ∀ x ∈ (scanStep lvl unit units sof cur acc n).2,
        NodeOk lvl unit units start x := by
  simp only [scanStep]
  split
  · exact ⟨hstart, hq⟩
  next hin =>
    split
    · exact ⟨hstart, hq⟩
    next hterr =>
      push_neg at hterr
      obtain ⟨hw, hm, hocc⟩ := hterr
      split
      next hcost =>
        refine ⟨List.mem_append_left _ hstart, ?_⟩
        intro x hx
        rcases List.mem_append.mp hx with h | h
        · exact hq x h
        · simp only [List.mem_singleton] at h
          subst h
          refine ⟨⟨not_not.mp hin, hw, hm, ?_, ?_⟩, hcost.1, ?_⟩
          · intro u hu hup
            exact hocc (List.any_eq_true.mpr ⟨u, hu, by simp [hup]⟩)
          · intro hns
            apply hcost.2
            have hns' : n = start := hns
            rw [hns']
            exact hstart
          · have := one_le_moveCost sof cur.2 (lvl.mapSetup n.x n.y)
            omega
      next => exact ⟨hstart, hq⟩

lemma scanNeighbors_inv (lvl : LevelData) (unit : Tactics.Unit)
    (units : List Tactics.Unit) (sof : Bool) (cur : Position × Nat)
    (start : Position) (visited : List Position)
    (hstart : start ∈ visited) :
    start ∈ (scanNeighbors lvl unit units sof cur visited).1 ∧
      ∀ x ∈ (scanNeighbors lvl unit units sof cur visited).2,
        NodeOk lvl unit units start x := by
  unfold scanNeighbors
  generalize neighbors cur.1 = ns
  have main : ∀ (ns : List Position) (acc : List Position × List (Position × Nat)),
      start ∈ acc.1 → (∀ x ∈ acc.2, NodeOk lvl unit units start x) →
      start ∈ (ns.foldl (scanStep lvl unit units sof cur) acc).1 ∧
        ∀ x ∈ (ns.foldl (scanStep lvl unit units sof cur) acc).2,
          NodeOk lvl unit units start x := by
    intro ns
    induction ns with
    | nil => intro acc h1 h2; exact ⟨h1, h2⟩
    | cons n ns ih =>
      intro acc h1 h2
      have step := scanStep_inv lvl unit units sof cur start acc n h1 h2
      exact ih _ step.1 step.2
  exact main ns (visited, []) hstart (by intro x hx; simp at hx)

lemma getValidMovesAux_sound {lvl : LevelData} {unit : Tactics.Unit}
    {units : List Tactics.Unit} {sof : Bool} {start : Position} :
    ∀ (fuel : Nat) (queue : List (Position × Nat)) (visited : List Position)
      (valid : List (Position × Nat)),
      start ∈ visited →
      (∀ x ∈ queue, 0 < x.2 → GoodCell lvl units start x.1 ∧ x.2 ≤ unit.moveRange) →
      (∀ x ∈ valid, NodeOk lvl unit units start x) →
      ∀ x ∈ getValidMovesAux lvl unit units sof fuel queue visited valid,
        NodeOk lvl unit units start x := by
  intro fuel
  induction fuel with
  | zero => intro queue visited valid _ _ hv x hx; exact hv x hx
  | succ fuel ih =>
    intro queue visited valid hstart hq hv x hx
    match queue with
    | [] => exact hv x hx
    | cur :: queue =>
      have hscan := scanNeighbors_inv lvl unit units sof cur start visited hstart
      refine ih (queue ++ (scanNeighbors lvl unit units sof cur visited).2)
        (scanNeighbors lvl unit units sof cur visited).1 _ hscan.1 ?_ ?_ x hx
      · intro y hy hypos
        rcases List.mem_append.mp hy with h | h
        · exact hq y (List.mem_cons_of_mem _ h) hypos
        · exact ⟨(hscan.2 y h).1, (hscan.2 y h).2.1⟩
      · intro y hy
        dsimp only [getValidMovesAux] at hx ⊢
        split at hy
        next hpos =>
          rcases List.mem_append.mp hy with h | h
          · exact hv y h
          · simp only [List.mem_singleton] at h
            subst h
            obtain ⟨hg, hle⟩ := hq y (List.mem_cons_self _ _) hpos
            exact ⟨hg, hle, hpos⟩
        next => exact hv y hy

/-- Soundness of the movement planner: every returned (cell, accumulated
cost) pair is a good cell within the movement budget. -/
lemma getValidMovesCosted_sound {lvl : LevelData} {unit : Tactics.Unit}
    {units : List Tactics.Unit} :
    ∀ x ∈ getValidMovesCosted lvl unit units,
      NodeOk lvl unit units unit.position x := by
  intro x hx
  unfold getValidMovesCosted at hx
  split at hx
  · simp at hx
  · refine getValidMovesAux_sound _ _ _ _ (List.mem_singleton_self _) ?_ ?_ x hx
    · intro y hy hypos
      simp only [List.mem_singleton] at hy
      subst hy
      simp at hypos
    · intro y hy
      simp at hy

/-- Soundness of `getValidMoves` at the position level. -/
lemma getValidMoves_sound {lvl : LevelData} {unit : Tactics.Unit}
    {units : List Tactics.Unit} {p : Position}
    (hp : p ∈ getValidMoves lvl unit units) :
    GoodCell lvl units unit.position p := by
  unfold getValidMoves at hp
  obtain ⟨x, hx, hxp⟩ := List.mem_map.mp hp
  exact hxp ▸ (getValidMovesCosted_sound x hx).1

/-- The chosen AI destination is either the enemy's own position or one of
its reachable cells. -/
lemma chooseMove_mem (player enemy : Tactics.Unit) (moves : List Position)
    (newUnits : List Tactics.Unit) :
    chooseMove player enemy moves newUnits = enemy.position ∨
      chooseMove player enemy moves newUnits ∈ moves := by
  unfold chooseMove
  have main : ∀ (ms : List Position) (acc : Position × Option Nat),
      (ms.foldl (chooseMoveStep player enemy newUnits) acc).1 = acc.1 ∨
        (ms.foldl (chooseMoveStep player enemy newUnits) acc).1 ∈ ms := by
    intro ms
    induction ms with
    | nil => intro acc; exact Or.inl rfl
    | cons m ms ih =>
      intro acc
      simp only [List.foldl_cons]
      have hstep : (chooseMoveStep player enemy newUnits acc m).1 = acc.1 ∨
          (chooseMoveStep player enemy newUnits acc m).1 = m := by
        simp only [chooseMoveStep]
        split
        · exact Or.inl rfl
        · split
          · exact Or.inr rfl
          · split
            · exact Or.inr rfl
            · exact Or.inl rfl
      rcases ih (chooseMoveStep player enemy newUnits acc m) with h | h
      · rcases hstep with h2 | h2
        · exact Or.inl (h.trans h2)
        · exact Or.inr (by rw [h, h2]; exact List.mem_cons_self _ _)
      · exact Or.inr (List.mem_cons_of_mem _ h)
  exact main moves (enemy.position, none)

/-- One AI movement step preserves the bounds/no-water invariant. -/
lemma aiMoveStep_waterSafe {lvl : LevelData} {player : Tactics.Unit}
    {origUnits newUnits : List Tactics.Unit} {enemy : Tactics.Unit}
    (horig : WaterSafe lvl origUnits) (henemy : enemy ∈ origUnits)
    (hnew : WaterSafe lvl newUnits) :
    WaterSafe lvl (aiMoveStep lvl player origUnits newUnits enemy) := by
  unfold aiMoveStep
  split
  · exact hnew
  split
  · intro u hu
    obtain ⟨v, hv, hvu⟩ := List.mem_map.mp hu
    subst hvu
    split
    · rcases chooseMove_mem player enemy (getValidMoves lvl enemy origUnits) newUnits
        with h | h
      · rw [h]
        exact horig enemy henemy
      · have hg := getValidMoves_sound h
        exact ⟨hg.1, hg.2.1⟩
    · exact hnew v hv
  · exact hnew

/-- The AI movement pass preserves the bounds/no-water invariant. -/
lemma aiMovePhase_waterSafe {lvl : LevelData} {player : Tactics.Unit}
    {origUnits : List Tactics.Unit} {enemies : List Tactics.Unit}
    (horig : WaterSafe lvl origUnits) (hmem : ∀ e ∈ enemies, e ∈ origUnits) :
    WaterSafe lvl (aiMovePhase lvl player origUnits enemies) := by
  unfold aiMovePhase
  have main : ∀ (es : List Tactics.Unit) (acc : List Tactics.Unit),
      (∀ e ∈ es, e ∈ origUnits) → WaterSafe lvl acc →
      WaterSafe lvl (es.foldl (aiMoveStep lvl player origUnits) acc) := by
    intro es
    induction es with
    | nil => intro acc _ h; exact h
    | cons e es ih =>
      intro acc hm ha
      exact ih _ (fun x hx => hm x (List.mem_cons_of_mem _ hx))
        (aiMoveStep_waterSafe horig (hm e (List.mem_cons_self _ _)) ha)
  exact main enemies origUnits hmem horig

/-- The full enemy-phase roster update preserves the invariant. -/
lemma enemyPhaseUnits_waterSafe {lvl : LevelData} {units : List Tactics.Unit}
    (hws : WaterSafe lvl units) :
    WaterSafe lvl (enemyPhaseUnits lvl units) := by
  simp only [enemyPhaseUnits]
  split
  · exact hws
  next player hplayer =>
    split
    · exact hws
    · intro u hu
      obtain ⟨humem, _⟩ := mem_keepAlive.mp hu
      obtain ⟨v, hv, hvu⟩ := List.mem_map.mp humem
      have hmove : WaterSafe lvl (aiMovePhase lvl player units
          ((units.filter (fun u => decide (u.team = Team.enemy))).insertionSort
            (closerToPlayer player))) := by
        refine aiMovePhase_waterSafe hws ?_
        intro e he
        exact List.mem_of_mem_filter ((List.mem_insertionSort _).mp he)
      have hvpos := hmove v hv
      subst hvu
      split
      · exact hvpos
      · exact hvpos

/-- A direct attack preserves the invariant (it moves nobody). -/
lemma executeAttackUnits_waterSafe {lvl : LevelData}
    {attacker target : Tactics.Unit} {prev : List Tactics.Unit}
    (hws : WaterSafe lvl prev) :
    WaterSafe lvl (executeAttackUnits attacker target prev) := by
  unfold executeAttackUnits
  intro u hu
  obtain ⟨humem, _⟩ := mem_keepAlive.mp hu
  obtain ⟨v, hv, hvu⟩ := List.mem_map.mp humem
  have hvpos := hws v hv
  subst hvu
  split
  · exact hvpos
  · exact hvpos

/-- A move to a planner-returned cell preserves the invariant. -/
lemma moveUpdate_waterSafe {lvl : LevelData} {mover : Tactics.Unit}
    {units : List Tactics.Unit} {p : Position}
    (hp : p ∈ getValidMoves lvl mover units) (hws : WaterSafe lvl units) :
    WaterSafe lvl (units.map (fun u =>
      if u.id = mover.id then { u with position := p } else u)) := by
  intro u hu
  obtain ⟨v, hv, hvu⟩ := List.mem_map.mp hu
  have hg := getValidMoves_sound hp
  subst hvu
  split
  · exact ⟨hg.1, hg.2.1⟩
  · exact hws v hv

/-!
## Concrete states used by counterexamples and witnesses
-/

def c1hero : Tactics.Unit := mkUnit "hero" .player shieldEmoji ⟨2, 2⟩ 1
def c1arch : Tactics.Unit := mkUnit "arch" .enemy archerEmoji ⟨3, 2⟩ 4
def c1sb : Tactics.Unit := mkUnit "sb" .enemy shieldEmoji ⟨4, 2⟩ 50

/-- A level whose cell `(9,5)` is mountain, with all else plains. -/
def c2lvl : LevelData :=
  { id := 9, gridSize := 10,
    mapSetup := fun x y => if x = 9 ∧ y = 5 then .mountain else .plains }

def c2hero : Tactics.Unit := mkUnit "hero" .player shieldEmoji ⟨7, 5⟩ 1
def c2sb : Tactics.Unit := mkUnit "sb" .enemy shieldEmoji ⟨8, 5⟩ 50

def c4A : Tactics.Unit := mkUnit "hero" .player shieldEmoji ⟨1, 1⟩ 5
def c4T : Tactics.Unit := mkUnit "t" .enemy shieldEmoji ⟨2, 1⟩ 50
def c4B : Tactics.Unit := mkUnit "b" .enemy shieldEmoji ⟨3, 1⟩ 50
def c4C : Tactics.Unit := mkUnit "c" .enemy shieldEmoji ⟨5, 1⟩ 50

/-!
## Claim C1
-/

/-- **C1** counterexample.  In the symmetric pairing — a pushed archer-kind
unit striking a shieldbearer-kind unit — the code removes the struck
*shieldbearer* and the *archer* survives, occupying the struck cell with
HP−1 and `stunned`; the claim predicts the opposite (archer removed,
non-archer surviving).  Concrete input: hero at (2,2) bashes the archer at
(3,2) into the shieldbearer at (4,2) on an all-plains 10×10 grid. -/
theorem pushed_archer_survives_collision_with_shieldbearer :
    (∃ u ∈ (executeShieldBash (flatLevel 10) c1hero c1arch
        [c1hero, c1arch, c1sb]).units,
      u.id = c1arch.id ∧ u.position = c1sb.position ∧ u.stunned = true
        ∧ u.hp = c1arch.hp - 1) ∧
    ∀ u ∈ (executeShieldBash (flatLevel 10) c1hero c1arch
        [c1hero, c1arch, c1sb]).units, u.id ≠ c1sb.id := by
  decide

/-!
## Claim C2
-/

/-- **C2** counterexample.  With a mountain on step 1 of the path at `(9,5)`
and the step-2 destination `(10,5)` out of bounds, the code eliminates the
pushed unit outright (the bounds check of the final destination runs before
the path scan); the claim says the step-1 mountain collision is resolved
instead. -/
theorem step1_mountain_step2_oob_eliminates_target :
    c2lvl.mapSetup 9 5 = .mountain ∧
    ¬ inBounds c2lvl (bashPushPos c2hero c2sb) ∧
    (executeShieldBash c2lvl c2hero c2sb [c2hero, c2sb]).units = [c2hero] := by
  decide

/-!
## Claim C3
-/

/-- **C3** counterexample.  A bash into a mountain cell leaves the pushed
unit at rest *on* the mountain (stunned), so the live roster can contain a
unit on mountain terrain, contrary to the claim's "neither water nor
mountain". -/
theorem bash_can_rest_unit_on_mountain :
    ∃ u ∈ (executeShieldBash mountainAt65
        (mkUnit "hero" .player shieldEmoji ⟨4, 5⟩ 1)
        (mkUnit "sb" .enemy shieldEmoji ⟨5, 5⟩ 50)
        [mkUnit "hero" .player shieldEmoji ⟨4, 5⟩ 1,
         mkUnit "sb" .enemy shieldEmoji ⟨5, 5⟩ 50]).units,
      mountainAt65.mapSetup u.position.x u.position.y = .mountain := by
  decide

/-- **C3** (amended).  After every completed operation — bash resolution (of
a roster unit), direct attack, a move to a planner-returned cell, and the
enemy phase — every unit in the live roster is within grid bounds and not on
water terrain; a unit whose resolution would settle it on water is
eliminated rather than persisted.  (A unit *can* come to rest on a mountain
cell through a bash mountain-collision stun, which is the one part of the
original claim the code violates.) -/
theorem operations_preserve_bounds_and_no_water
    (lvl : LevelData) (units : List Tactics.Unit) (hws : WaterSafe lvl units) :
    (∀ attacker target, target ∈ units →
        WaterSafe lvl (executeShieldBash lvl attacker target units).units)
    ∧ (∀ attacker target, WaterSafe lvl (executeAttackUnits attacker target units))
    ∧ (∀ mover p, p ∈ getValidMoves lvl mover units →
        WaterSafe lvl (units.map (fun u =>
          if u.id = mover.id then { u with position := p } else u)))
    ∧ WaterSafe lvl (enemyPhaseUnits lvl units) :=
  ⟨fun _ _ htm => executeShieldBash_waterSafe htm hws,
   fun _ _ => executeAttackUnits_waterSafe hws,
   fun _ _ hp => moveUpdate_waterSafe hp hws,
   enemyPhaseUnits_waterSafe hws⟩

/-- Witness for the amended C3 theorem at a concrete state: a bash off the
east edge of an all-plains 4×4 grid (the pushed unit is eliminated) keeps
the roster in bounds and off water. -/
theorem operations_preserve_bounds_and_no_water_witness :
    WaterSafe (flatLevel 4) [mkUnit "hero" .player shieldEmoji ⟨1, 1⟩ 1,
      mkUnit "sb" .enemy shieldEmoji ⟨2, 1⟩ 9] ∧
    mkUnit "sb" .enemy shieldEmoji ⟨2, 1⟩ 9 ∈
      [mkUnit "hero" .player shieldEmoji ⟨1, 1⟩ 1,
       mkUnit "sb" .enemy shieldEmoji ⟨2, 1⟩ 9] ∧
    WaterSafe (flatLevel 4) (executeShieldBash (flatLevel 4)
      (mkUnit "hero" .player shieldEmoji ⟨1, 1⟩ 1)
      (mkUnit "sb" .enemy shieldEmoji ⟨2, 1⟩ 9)
      [mkUnit "hero" .player shieldEmoji ⟨1, 1⟩ 1,
       mkUnit "sb" .enemy shieldEmoji ⟨2, 1⟩ 9]).units :=
  ⟨by decide, by decide,
   (operations_preserve_bounds_and_no_water (flatLevel 4) _ (by decide)).1
     (mkUnit "hero" .player shieldEmoji ⟨1, 1⟩ 1)
     (mkUnit "sb" .enemy shieldEmoji ⟨2, 1⟩ 9) (by decide)⟩

/-!
## Claim C4
-/

/-- **C4** failing input.  A generic chain collision whose secondary
knockback destination is already occupied: hero at (1,1) bashes `t` at
(2,1); `t` collides with `b` at (3,1); `b` is knocked two further cells to
(5,1), where `c` already stands — the code never checks occupancy of the
secondary destination, so `b` and `c` end on the same cell. -/
theorem secondary_knockback_creates_duplicate_occupancy :
    ∃ u ∈ (executeShieldBash (flatLevel 8) c4A c4T [c4A, c4T, c4B, c4C]).units,
      ∃ v ∈ (executeShieldBash (flatLevel 8) c4A c4T [c4A, c4T, c4B, c4C]).units,
        u.id ≠ v.id ∧ u.position = v.position := by
  decide

/-!
## Claim C6
-/

/-- **C6**.  Every cell returned by the Movement Planner is in bounds, not
water, not mountain, not occupied by any unit, distinct from the moving
unit's own starting cell, and carries an accumulated entry cost of at most
`unit.moveRange`. -/
theorem movement_planner_sound (lvl : LevelData) (unit : Tactics.Unit)
    (units : List Tactics.Unit) (p : Position)
    (hp : p ∈ getValidMoves lvl unit units) :
    (inBounds lvl p ∧ lvl.mapSetup p.x p.y ≠ .water ∧
      lvl.mapSetup p.x p.y ≠ .mountain ∧ (∀ u ∈ units, u.position ≠ p) ∧
      p ≠ unit.position) ∧
    ∃ c, (p, c) ∈ getValidMovesCosted lvl unit units ∧ c ≤ unit.moveRange := by
  refine ⟨getValidMoves_sound hp, ?_⟩
  unfold getValidMoves at hp
  obtain ⟨x, hx, hxp⟩ := List.mem_map.mp hp
  refine ⟨x.2, ?_, (getValidMovesCosted_sound x hx).2.1⟩
  rw [← hxp]
  exact hx

/-- Witness for C6: the cell `(2,1)` is reachable on an all-plains 3×3 grid
by the unit standing at `(1,1)`, and the guarantees hold there. -/
theorem movement_planner_sound_witness :
    (⟨2, 1⟩ : Position) ∈ getValidMoves (flatLevel 3)
      (mkUnit "hero" .player shieldEmoji ⟨1, 1⟩ 5)
      [mkUnit "hero" .player shieldEmoji ⟨1, 1⟩ 5] ∧
    ((inBounds (flatLevel 3) ⟨2, 1⟩ ∧
      (flatLevel 3).mapSetup 2 1 ≠ .water ∧
      (flatLevel 3).mapSetup 2 1 ≠ .mountain ∧
      (∀ u ∈ [mkUnit "hero" .player shieldEmoji ⟨1, 1⟩ 5],
        u.position ≠ (⟨2, 1⟩ : Position)) ∧
      (⟨2, 1⟩ : Position) ≠ (mkUnit "hero" .player shieldEmoji ⟨1, 1⟩ 5).position) ∧
    ∃ c, ((⟨2, 1⟩ : Position), c) ∈ getValidMovesCosted (flatLevel 3)
        (mkUnit "hero" .player shieldEmoji ⟨1, 1⟩ 5)
        [mkUnit "hero" .player shieldEmoji ⟨1, 1⟩ 5] ∧
      c ≤ (mkUnit "hero" .player shieldEmoji ⟨1, 1⟩ 5).moveRange) :=
  ⟨by decide, movement_planner_sound (flatLevel 3) _ _ _ (by decide)⟩

/-!
## Claim C8
-/

/-- **C8**.  A non-archer-kind unit starting on forest pays exactly 2
movement points for its first step regardless of the destination terrain;
an archer-kind unit is exempt and pays only the destination entry cost.
Behaviorally: a non-archer on forest with only 1 movement point cannot move
at all. -/
theorem forest_exit_cost_and_archer_exemption :
    (∀ (lvl : LevelData) (unit : Tactics.Unit) (t : TerrainType),
        unit.emoji ≠ archerEmoji →
        lvl.mapSetup unit.position.x unit.position.y = .forest →
        moveCost (startsOnForest lvl unit) 0 t = 2)
    ∧ (∀ (lvl : LevelData) (unit : Tactics.Unit) (t : TerrainType),
        unit.emoji = archerEmoji →
        moveCost (startsOnForest lvl unit) 0 t = entryCost t)
    ∧ (∀ (lvl : LevelData) (unit : Tactics.Unit) (units : List Tactics.Unit),
        unit.emoji ≠ archerEmoji →
        lvl.mapSetup unit.position.x unit.position.y = .forest →
        unit.moveRange = 1 → unit.stunned = false →
        getValidMoves lvl unit units = []) := by
  have hsof : ∀ (lvl : LevelData) (unit : Tactics.Unit),
      unit.emoji ≠ archerEmoji →
      lvl.mapSetup unit.position.x unit.position.y = .forest →
      startsOnForest lvl unit = true := by
    intro lvl unit h1 h2
    simp [startsOnForest, h1, h2]
  refine ⟨?_, ?_, ?_⟩
  · intro lvl unit t h1 h2
    rw [moveCost, if_pos ⟨rfl, hsof lvl unit h1 h2⟩]
  · intro lvl unit t h1
    have : startsOnForest lvl unit = false := by simp [startsOnForest, h1]
    rw [moveCost, this]
    simp
  · intro lvl unit units h1 h2 hmr hst
    have hsf := hsof lvl unit h1 h2
    have hstep : ∀ (acc : List Position × List (Position × Nat)) (n : Position),
        scanStep lvl unit units (startsOnForest lvl unit) (unit.position, 0) acc n
          = acc := by
      intro acc n
      simp only [scanStep]
      split
      · rfl
      split
      · rfl
      split
      next hcond =>
        exfalso
        have : moveCost (startsOnForest lvl unit) (unit.position, 0).2
            (lvl.mapSetup n.x n.y) = 2 := by
          rw [moveCost, if_pos ⟨rfl, hsf⟩]
        rw [this, hmr] at hcond
        omega
      · rfl
    have hfold : ∀ (ns : List Position) (acc : List Position × List (Position × Nat)),
        ns.foldl (scanStep lvl unit units (startsOnForest lvl unit)
          (unit.position, 0)) acc = acc := by
      intro ns
      induction ns with
      | nil => intro acc; rfl
      | cons n ns ih => intro acc; rw [List.foldl_cons, hstep]; exact ih acc
    have hscan : scanNeighbors lvl unit units (startsOnForest lvl unit)
        (unit.position, 0) [unit.position] = ([unit.position], []) := by
      unfold scanNeighbors
      exact hfold _ _
    have hempty : ∀ fuel, getValidMovesAux lvl unit units (startsOnForest lvl unit)
        fuel [(unit.position, 0)] [unit.position] [] = [] := by
      intro fuel
      match fuel with
      | 0 => rfl
      | fuel + 1 =>
        simp only [getValidMovesAux, hscan]
        match fuel with
        | 0 => rfl
        | fuel + 1 => rfl
    unfold getValidMoves getValidMovesCosted
    rw [if_neg (by simp [hst])]
    rw [hempty]
    rfl

/-- Witness for C8 at concrete inputs: a shield-kind unit standing on the
forest cell `(1,3)` of level 1 pays 2 to step onto plains, while an
archer-kind unit on the same cell pays 1; the shield-kind unit with 1
movement point has no valid moves. -/
theorem forest_exit_cost_and_archer_exemption_witness :
    (mkUnit "sb" .enemy shieldEmoji ⟨1, 3⟩ 5).emoji ≠ archerEmoji ∧
    level1.mapSetup 1 3 = .forest ∧
    moveCost (startsOnForest level1 (mkUnit "sb" .enemy shieldEmoji ⟨1, 3⟩ 5)) 0
      .plains = 2 ∧
    moveCost (startsOnForest level1 (mkUnit "arch" .enemy archerEmoji ⟨1, 3⟩ 5)) 0
      .plains = entryCost .plains ∧
    getValidMoves level1
      { mkUnit "sb" .enemy shieldEmoji ⟨1, 3⟩ 5 with moveRange := 1 } [] = [] := by
  refine ⟨by decide, by decide, ?_, ?_, ?_⟩
  · exact (forest_exit_cost_and_archer_exemption.1 level1 _ .plains
      (by decide) (by decide))
  · exact (forest_exit_cost_and_archer_exemption.2.1 level1 _ .plains (by decide))
  · exact (forest_exit_cost_and_archer_exemption.2.2 level1 _ []
      (by decide) (by decide) (by decide) (by decide))

/-!
## Claim C9
-/

def c9hero : Tactics.Unit := mkUnit "hero" .player shieldEmoji ⟨1, 1⟩ 5

/-- A terminal (won) state in which it is still the player's turn. -/
def c9st : EngineState :=
  { units := [c9hero], selectedUnitId := none, validMoves := [],
    currentTurn := .player, hasMoved := false, validTargets := [],
    selectedAction := .attack, gameState := .won }

/-- **C9** counterexample.  `handleTileClick` is gated only on
`currentTurn`, not on `gameState`: with the outcome already `won`, clicking
the surviving hero selects it and clicking a reachable cell then moves it,
changing the roster and handing the turn to the enemy — not a no-op. -/
theorem click_after_victory_mutates_state :
    c9st.gameState = .won ∧
    (handleTileClick (flatLevel 3) (handleTileClick (flatLevel 3) c9st ⟨1, 1⟩)
        ⟨0, 1⟩).units ≠ c9st.units ∧
    (handleTileClick (flatLevel 3) (handleTileClick (flatLevel 3) c9st ⟨1, 1⟩)
        ⟨0, 1⟩).currentTurn ≠ c9st.currentTurn := by
  decide

/-- **C9** (amended).  Once the session outcome is `won` or `lost`, the
enemy phase and the win/loss evaluation are no-ops — the roster, turn state
and outcome are unchanged by them.  Tile clicks, however, are gated only on
`currentTurn` and can still mutate the state; in the shipped UI they are
blocked by the terminal-screen overlay, not by the engine. -/
theorem terminal_outcome_blocks_enemy_phase_and_outcome_change
    (lvl : LevelData) (st : EngineState) (h : st.gameState ≠ .playing) :
    enemyPhase lvl st = st ∧ checkWinLoss st = st := by
  constructor
  · unfold enemyPhase
    rw [if_neg]
    rintro ⟨_, h2⟩
    exact h h2
  · unfold checkWinLoss
    rw [if_pos h]

/-- Witness for the amended C9 theorem at a concrete terminal state (outcome
`won`, turn already handed to the enemy). -/
theorem terminal_outcome_blocks_enemy_phase_and_outcome_change_witness :
    ({ c9st with currentTurn := .enemy } : EngineState).gameState ≠ .playing ∧
    (enemyPhase (flatLevel 3) { c9st with currentTurn := .enemy }
        = { c9st with currentTurn := .enemy } ∧
      checkWinLoss { c9st with currentTurn := .enemy }
        = { c9st with currentTurn := .enemy }) :=
  ⟨by decide,
   terminal_outcome_blocks_enemy_phase_and_outcome_change (flatLevel 3)
     { c9st with currentTurn := .enemy } (by decide)⟩

/-!
## Bash branch analysis
-/

/-- In a roster with pairwise-distinct unit ids, removing the entry at
index `hi` from `prev.set ti X` leaves no unit carrying the id of the
removed `prev[hi]`, provided the substituted `X` does not carry it either. -/
lemma set_eraseIdx_id_free {prev : List Tactics.Unit} {ti hi : Nat}
    {X : Tactics.Unit} (hnd : (prev.map (fun u => u.id)).Nodup)
    (hhi : hi < prev.length) (hX : X.id ≠ prev[hi].id) :
    ∀ u ∈ (prev.set ti X).eraseIdx hi, u.id ≠ prev[hi].id := by
  intro u hu
  rw [List.mem_eraseIdx_iff_getElem] at hu
  obtain ⟨j, hj, hjne, hju⟩ := hu
  rw [List.length_set] at hj
  rw [List.getElem_set] at hju
  by_cases hjt : ti = j
  · rw [if_pos hjt] at hju
    rw [← hju]
    exact hX
  · rw [if_neg hjt] at hju
    rw [← hju]
    intro heq
    have hj2 : j < (prev.map (fun u => u.id)).length := by simpa using hj
    have hi2 : hi < (prev.map (fun u => u.id)).length := by simpa using hhi
    have hmap : (prev.map (fun u => u.id))[j]
        = (prev.map (fun u => u.id))[hi] := by
      simp only [List.getElem_map]
      exact heq
    exact hjne ((List.Nodup.getElem_inj_iff hnd).mp hmap)

lemma mem_of_getElem_eq {l : List Tactics.Unit} {i : Nat} {a : Tactics.Unit}
    (h : i < l.length) (he : l[i] = a) : a ∈ l :=
  he ▸ List.getElem_mem h

/-- Analog of `set_eraseIdx_id_free` without the substitution. -/
lemma eraseIdx_id_free {prev : List Tactics.Unit} {ti : Nat}
    (hnd : (prev.map (fun u => u.id)).Nodup) (hti : ti < prev.length) :
    ∀ u ∈ prev.eraseIdx ti, u.id ≠ prev[ti].id := by
  intro u hu
  rw [List.mem_eraseIdx_iff_getElem] at hu
  obtain ⟨j, hj, hjne, hju⟩ := hu
  rw [← hju]
  intro heq
  have hj2 : j < (prev.map (fun u => u.id)).length := by simpa using hj
  have hti2 : ti < (prev.map (fun u => u.id)).length := by simpa using hti
  have hmap : (prev.map (fun u => u.id))[j]
      = (prev.map (fun u => u.id))[ti] := by
    simp only [List.getElem_map]
    exact heq
  exact hjne ((List.Nodup.getElem_inj_iff hnd).mp hmap)

/-- The record produced for a pushed unit that collides and stops stunned at
position `p` with HP reduced by 1 (the repeated update of
`executeShieldBash`). -/
def bashedStunned (targetUnit : Tactics.Unit) (p : Position) : Tactics.Unit :=
  { targetUnit with hp := targetUnit.hp - 1, position := p, stunned := true }

/-- The record produced for a struck unit surviving a secondary knockback to
`p`: HP reduced by 1, `stunned` untouched. -/
def knockedBack (hitUnit : Tactics.Unit) (p : Position) : Tactics.Unit :=
  { hitUnit with hp := hitUnit.hp - 1, position := p }

/-- Pins the unit-vs-unit collision branch of `executeShieldBash`: given
that the target is found and alive, the push destination is in bounds, the
first collision on the path is at `cp`, `cp` is not mountain terrain and the
struck unit is found at `cp`, the resolution is the four-way case split on
the kind pairing and the secondary-knockback fate. -/
lemma executeShieldBash_unitCollision {lvl : LevelData}
    {attacker target : Tactics.Unit} {prev : List Tactics.Unit}
    {ti hi : Nat} {targetUnit hitUnit : Tactics.Unit} {cp : Position}
    (hfind : prev.findIdx? (fun u => decide (u.id = target.id)) = some ti)
    (hget : prev[ti]? = some targetUnit)
    (hhp : 0 < targetUnit.hp)
    (hib : inBounds lvl (bashPushPos attacker target))
    (hcol : (bashPath attacker target).find? (bashCollides lvl target.id prev)
      = some cp)
    (hnm : lvl.mapSetup cp.x cp.y ≠ .mountain)
    (hhit : prev.findIdx? (fun u => decide (u.position = cp ∧ u.id ≠ target.id))
      = some hi)
    (hgethit : prev[hi]? = some hitUnit) :
    executeShieldBash lvl attacker target prev =
      (if target.emoji = shieldEmoji ∧ hitUnit.emoji = archerEmoji then
        ⟨keepAlive ((prev.set ti
          (bashedStunned targetUnit hitUnit.position)).eraseIdx hi), true⟩
      else if hitUnit.emoji = shieldEmoji ∧ target.emoji = archerEmoji then
        ⟨keepAlive ((prev.set ti
          (bashedStunned targetUnit hitUnit.position)).eraseIdx hi), true⟩
      else if ¬ inBounds lvl (bashSecondaryPos attacker target cp)
          ∨ lvl.mapSetup (bashSecondaryPos attacker target cp).x
              (bashSecondaryPos attacker target cp).y = .water then
        ⟨keepAlive ((prev.set ti
          (bashedStunned targetUnit hitUnit.position)).eraseIdx hi), true⟩
      else
        ⟨keepAlive ((prev.set ti
          (bashedStunned targetUnit hitUnit.position)).set hi
          (knockedBack hitUnit (bashSecondaryPos attacker target cp))), true⟩) := by
  have hhp' : ¬ targetUnit.hp ≤ 0 := by omega
  simp only [executeShieldBash, bashedStunned, knockedBack, hfind, hget, hcol,
    hhit, hgethit, hhp', hib, hnm, not_true, not_false_iff, if_false, if_true,
    ite_false, ite_true]

/-- Index facts extracted from the target lookup. -/
lemma bash_target_facts {prev : List Tactics.Unit} {target targetUnit : Tactics.Unit}
    {ti : Nat}
    (hfind : prev.findIdx? (fun u => decide (u.id = target.id)) = some ti)
    (hget : prev[ti]? = some targetUnit) :
    ∃ hlt : ti < prev.length, prev[ti] = targetUnit ∧ targetUnit.id = target.id := by
  obtain ⟨hlt, hp, _⟩ := List.findIdx?_eq_some_iff_getElem.mp hfind
  obtain ⟨hlt2, hg⟩ := List.getElem?_eq_some.mp hget
  refine ⟨hlt, hg, ?_⟩
  rw [← hg]
  exact of_decide_eq_true hp

/-- Index facts extracted from the struck-unit lookup. -/
lemma bash_hit_facts {prev : List Tactics.Unit} {target hitUnit : Tactics.Unit}
    {cp : Position} {hi : Nat}
    (hhit : prev.findIdx? (fun u => decide (u.position = cp ∧ u.id ≠ target.id))
      = some hi)
    (hgethit : prev[hi]? = some hitUnit) :
    ∃ hlt : hi < prev.length, prev[hi] = hitUnit ∧ hitUnit.position = cp ∧
      hitUnit.id ≠ target.id := by
  obtain ⟨hlt, hp, _⟩ := List.findIdx?_eq_some_iff_getElem.mp hhit
  obtain ⟨hlt2, hg⟩ := List.getElem?_eq_some.mp hgethit
  rw [hg] at hp
  have hp' := of_decide_eq_true hp
  exact ⟨hlt, hg, hp'.1, hp'.2⟩

/-!
## Claim C1 (amended theorem)
-/

/-- **C1** (amended).  For every knockback bash whose pushed target collides
with another unit where one of the two is archer-kind and the other
shieldbearer-kind — in either pairing — the *struck* unit is removed from
the roster entirely with no knockback applied to it, and the *pushed* unit
(whether it is the shieldbearer or the archer) ends the resolution occupying
the struck cell with its HP reduced by 1 and its stunned flag set, the turn
ending immediately. -/
theorem bash_kind_collision_removes_struck_unit {lvl : LevelData}
    {attacker target : Tactics.Unit} {prev : List Tactics.Unit}
    {ti hi : Nat} {targetUnit hitUnit : Tactics.Unit} {cp : Position}
    (hfind : prev.findIdx? (fun u => decide (u.id = target.id)) = some ti)
    (hget : prev[ti]? = some targetUnit)
    (hhp : 1 < targetUnit.hp)
    (hib : inBounds lvl (bashPushPos attacker target))
    (hcol : (bashPath attacker target).find? (bashCollides lvl target.id prev)
      = some cp)
    (hnm : lvl.mapSetup cp.x cp.y ≠ .mountain)
    (hhit : prev.findIdx? (fun u => decide (u.position = cp ∧ u.id ≠ target.id))
      = some hi)
    (hgethit : prev[hi]? = some hitUnit)
    (hpair : (target.emoji = shieldEmoji ∧ hitUnit.emoji = archerEmoji) ∨
      (hitUnit.emoji = shieldEmoji ∧ target.emoji = archerEmoji))
    (hnd : (prev.map (fun u => u.id)).Nodup) :
    (executeShieldBash lvl attacker target prev).endedTurn = true ∧
    bashedStunned targetUnit hitUnit.position ∈
      (executeShieldBash lvl attacker target prev).units ∧
    ∀ u ∈ (executeShieldBash lvl attacker target prev).units,
      u.id ≠ hitUnit.id := by
  obtain ⟨hltt, hgt, hidt⟩ := bash_target_facts hfind hget
  obtain ⟨hlth, hgh, hposh, hidh⟩ := bash_hit_facts hhit hgethit
  have htine : ti ≠ hi := by
    intro h
    subst h
    apply hidh
    have heq : hitUnit = targetUnit := by rw [← hgh, hgt]
    rw [heq, hidt]
  have hres := executeShieldBash_unitCollision hfind hget (by omega) hib hcol
    hnm hhit hgethit
  have hmain : executeShieldBash lvl attacker target prev =
      ⟨keepAlive ((prev.set ti
        (bashedStunned targetUnit hitUnit.position)).eraseIdx hi), true⟩ := by
    rcases hpair with hp1 | hp2
    · rw [hres, if_pos hp1]
    · rw [hres]
      have hne : ¬ (target.emoji = shieldEmoji ∧ hitUnit.emoji = archerEmoji) := by
        rintro ⟨h1, _⟩
        rw [hp2.2] at h1
        exact absurd h1 (by decide)
      rw [if_neg hne, if_pos hp2]
  rw [hmain]
  refine ⟨rfl, ?_, ?_⟩
  · apply mem_keepAlive.mpr
    constructor
    · rw [List.mem_eraseIdx_iff_getElem]
      refine ⟨ti, by simpa using hltt, htine, ?_⟩
      rw [List.getElem_set]
      rw [if_pos rfl]
    · show 0 < targetUnit.hp - 1
      omega
  · intro u hu
    have hu2 := keepAlive_subset _ hu
    have hXid : (bashedStunned targetUnit hitUnit.position).id ≠ prev[hi].id := by
      show targetUnit.id ≠ prev[hi].id
      rw [hgh, hidt]
      exact fun hh => hidh hh.symm
    have hfree := set_eraseIdx_id_free hnd hlth hXid u hu2
    rw [hgh] at hfree
    exact hfree

/-!
## Claim C5
-/

/-- **C5**.  For every generic unit-vs-unit bash collision (neither
archer/shieldbearer pairing): the turn ends immediately; the pushed unit
takes the struck unit's cell with HP−1 and stunned; the struck unit is
knocked 2 further cells along the same raw displacement measured from the
collision point — eliminated if that destination is out of bounds or water,
otherwise moved there with HP−1 and its stunned flag untouched. -/
theorem generic_bash_collision_swap_and_secondary_knockback {lvl : LevelData}
    {attacker target : Tactics.Unit} {prev : List Tactics.Unit}
    {ti hi : Nat} {targetUnit hitUnit : Tactics.Unit} {cp : Position}
    (hfind : prev.findIdx? (fun u => decide (u.id = target.id)) = some ti)
    (hget : prev[ti]? = some targetUnit)
    (hhp : 0 < targetUnit.hp)
    (hib : inBounds lvl (bashPushPos attacker target))
    (hcol : (bashPath attacker target).find? (bashCollides lvl target.id prev)
      = some cp)
    (hnm : lvl.mapSetup cp.x cp.y ≠ .mountain)
    (hhit : prev.findIdx? (fun u => decide (u.position = cp ∧ u.id ≠ target.id))
      = some hi)
    (hgethit : prev[hi]? = some hitUnit)
    (hpair1 : ¬ (target.emoji = shieldEmoji ∧ hitUnit.emoji = archerEmoji))
    (hpair2 : ¬ (hitUnit.emoji = shieldEmoji ∧ target.emoji = archerEmoji))
    (hnd : (prev.map (fun u => u.id)).Nodup) :
    (executeShieldBash lvl attacker target prev).endedTurn = true ∧
    (1 < targetUnit.hp → bashedStunned targetUnit hitUnit.position ∈
      (executeShieldBash lvl attacker target prev).units) ∧
    ((¬ inBounds lvl (bashSecondaryPos attacker target cp) ∨
        lvl.mapSetup (bashSecondaryPos attacker target cp).x
          (bashSecondaryPos attacker target cp).y = .water) →
      ∀ u ∈ (executeShieldBash lvl attacker target prev).units,
        u.id ≠ hitUnit.id) ∧
    (inBounds lvl (bashSecondaryPos attacker target cp) →
      lvl.mapSetup (bashSecondaryPos attacker target cp).x
        (bashSecondaryPos attacker target cp).y ≠ .water →
      1 < hitUnit.hp →
      knockedBack hitUnit (bashSecondaryPos attacker target cp) ∈
        (executeShieldBash lvl attacker target prev).units) := by
  obtain ⟨hltt, hgt, hidt⟩ := bash_target_facts hfind hget
  obtain ⟨hlth, hgh, hposh, hidh⟩ := bash_hit_facts hhit hgethit
  have htine : ti ≠ hi := by
    intro h
    subst h
    apply hidh
    have heq : hitUnit = targetUnit := by rw [← hgh, hgt]
    rw [heq, hidt]
  have hres := executeShieldBash_unitCollision hfind hget hhp hib hcol
    hnm hhit hgethit
  rw [hres, if_neg hpair1, if_neg hpair2]
  by_cases hgone : ¬ inBounds lvl (bashSecondaryPos attacker target cp) ∨
      lvl.mapSetup (bashSecondaryPos attacker target cp).x
        (bashSecondaryPos attacker target cp).y = .water
  · rw [if_pos hgone]
    refine ⟨rfl, ?_, ?_, ?_⟩
    · intro hhp2
      apply mem_keepAlive.mpr
      constructor
      · rw [List.mem_eraseIdx_iff_getElem]
        refine ⟨ti, by simpa using hltt, htine, ?_⟩
        rw [List.getElem_set, if_pos rfl]
      · show 0 < targetUnit.hp - 1
        omega
    · intro _ u hu
      have hu2 := keepAlive_subset _ hu
      have hXid : (bashedStunned targetUnit hitUnit.position).id ≠ prev[hi].id := by
        show targetUnit.id ≠ prev[hi].id
        rw [hgh, hidt]
        exact fun hh => hidh hh.symm
      have hfree := set_eraseIdx_id_free hnd hlth hXid u hu2
      rw [hgh] at hfree
      exact hfree
    · intro h1 h2 _
      exfalso
      rcases hgone with h | h
      · exact h h1
      · exact h2 h
  · rw [if_neg hgone]
    push_neg at hgone
    refine ⟨rfl, ?_, ?_, ?_⟩
    · intro hhp2
      apply mem_keepAlive.mpr
      constructor
      · have hlt2 : ti < ((prev.set ti (bashedStunned targetUnit
            hitUnit.position)).set hi (knockedBack hitUnit
            (bashSecondaryPos attacker target cp))).length := by
          simpa using hltt
        have hgeq : ((prev.set ti (bashedStunned targetUnit
            hitUnit.position)).set hi (knockedBack hitUnit
            (bashSecondaryPos attacker target cp)))[ti] =
            bashedStunned targetUnit hitUnit.position := by
          rw [List.getElem_set, if_neg (fun h => htine h.symm),
            List.getElem_set, if_pos rfl]
        exact mem_of_getElem_eq hlt2 hgeq
      · show 0 < targetUnit.hp - 1
        omega
    · intro hcontra
      exfalso
      rcases hcontra with h | h
      · exact h hgone.1
      · exact hgone.2 h
    · intro _ _ hhp3
      apply mem_keepAlive.mpr
      constructor
      · have hlt2 : hi < ((prev.set ti (bashedStunned targetUnit
            hitUnit.position)).set hi (knockedBack hitUnit
            (bashSecondaryPos attacker target cp))).length := by
          simpa using hlth
        have hgeq : ((prev.set ti (bashedStunned targetUnit
            hitUnit.position)).set hi (knockedBack hitUnit
            (bashSecondaryPos attacker target cp)))[hi] =
            knockedBack hitUnit (bashSecondaryPos attacker target cp) := by
          rw [List.getElem_set, if_pos rfl]
        exact mem_of_getElem_eq hlt2 hgeq
      · show 0 < hitUnit.hp - 1
        omega

/-!
## Claim C2 (amended theorem)
-/

/-- **C2** (amended).  The bounds of the final 2-cell push destination are
checked first: if that destination is out of bounds, the pushed unit is
eliminated outright (even when step 1 of the path holds a mountain or a
unit).  Only when the destination is in bounds is the path scanned in order,
and then the first collision found governs the outcome — in particular a
first collision on mountain terrain stops the target there, stunned, with
HP−1 and the turn ending immediately. -/
theorem bash_bounds_checked_before_path_scan {lvl : LevelData}
    {attacker target : Tactics.Unit} {prev : List Tactics.Unit}
    {ti : Nat} {targetUnit : Tactics.Unit}
    (hfind : prev.findIdx? (fun u => decide (u.id = target.id)) = some ti)
    (hget : prev[ti]? = some targetUnit)
    (hhp : 0 < targetUnit.hp)
    (hnd : (prev.map (fun u => u.id)).Nodup) :
    (¬ inBounds lvl (bashPushPos attacker target) →
      (executeShieldBash lvl attacker target prev).units
          = keepAlive (prev.eraseIdx ti) ∧
        (executeShieldBash lvl attacker target prev).endedTurn = false ∧
        ∀ u ∈ (executeShieldBash lvl attacker target prev).units,
          u.id ≠ target.id) ∧
    (∀ cp : Position, inBounds lvl (bashPushPos attacker target) →
      (bashPath attacker target).find? (bashCollides lvl target.id prev)
          = some cp →
      lvl.mapSetup cp.x cp.y = .mountain →
      (executeShieldBash lvl attacker target prev).endedTurn = true ∧
        (1 < targetUnit.hp → bashedStunned targetUnit cp ∈
          (executeShieldBash lvl attacker target prev).units)) := by
  obtain ⟨hltt, hgt, hidt⟩ := bash_target_facts hfind hget
  have hhp' : ¬ targetUnit.hp ≤ 0 := by omega
  constructor
  · intro hoob
    have hmain : executeShieldBash lvl attacker target prev =
        ⟨keepAlive (prev.eraseIdx ti), false⟩ := by
      simp only [executeShieldBash, hfind, hget, hhp', hoob, not_false_iff,
        if_false, if_true, ite_false, ite_true]
    rw [hmain]
    refine ⟨rfl, rfl, ?_⟩
    intro u hu
    have hu2 := keepAlive_subset _ hu
    have hfree := eraseIdx_id_free hnd hltt u hu2
    rw [hgt, hidt] at hfree
    exact hfree
  · intro cp hib hcol hmtn
    have hmain : executeShieldBash lvl attacker target prev =
        ⟨keepAlive (prev.set ti (bashedStunned targetUnit cp)), true⟩ := by
      simp only [executeShieldBash, bashedStunned, hfind, hget, hhp', hib, hcol,
        hmtn, not_true, not_false_iff, if_false, if_true, ite_false, ite_true]
    rw [hmain]
    refine ⟨rfl, ?_⟩
    intro hhp2
    apply mem_keepAlive.mpr
    constructor
    · have hlt2 : ti < (prev.set ti (bashedStunned targetUnit cp)).length := by
        simpa using hltt
      have hgeq : (prev.set ti (bashedStunned targetUnit cp))[ti]
          = bashedStunned targetUnit cp := by
        rw [List.getElem_set, if_pos rfl]
      exact mem_of_getElem_eq hlt2 hgeq
    · show 0 < targetUnit.hp - 1
      omega

/-!
## Witness scenarios for the bash theorems
-/

def w1hero : Tactics.Unit := mkUnit "hero" .player shieldEmoji ⟨1, 2⟩ 1
def w1sb : Tactics.Unit := mkUnit "sb" .enemy shieldEmoji ⟨2, 2⟩ 50
def w1arch : Tactics.Unit := mkUnit "arch" .enemy archerEmoji ⟨3, 2⟩ 4

/-- Witness for the amended C1 theorem: scenario D — a pushed shieldbearer
striking an archer; the archer (struck unit) is removed and the shieldbearer
ends stunned on the archer's cell with HP−1. -/
theorem bash_kind_collision_removes_struck_unit_witness :
    (bashPath w1hero w1sb).find?
        (bashCollides (flatLevel 10) w1sb.id [w1hero, w1sb, w1arch])
      = some ⟨3, 2⟩ ∧
    ((executeShieldBash (flatLevel 10) w1hero w1sb
        [w1hero, w1sb, w1arch]).endedTurn = true ∧
      bashedStunned w1sb w1arch.position ∈
        (executeShieldBash (flatLevel 10) w1hero w1sb
          [w1hero, w1sb, w1arch]).units ∧
      ∀ u ∈ (executeShieldBash (flatLevel 10) w1hero w1sb
          [w1hero, w1sb, w1arch]).units, u.id ≠ w1arch.id) :=
  ⟨by decide,
   @bash_kind_collision_removes_struck_unit (flatLevel 10) w1hero w1sb
     [w1hero, w1sb, w1arch] 1 2 w1sb w1arch ⟨3, 2⟩ (by decide) (by decide)
     (by decide) (by decide) (by decide) (by decide) (by decide) (by decide)
     (Or.inl (by decide)) (by decide)⟩

def w5hero : Tactics.Unit := mkUnit "hero" .player shieldEmoji ⟨1, 1⟩ 1
def w5t : Tactics.Unit := mkUnit "t" .enemy shieldEmoji ⟨2, 1⟩ 50
def w5b : Tactics.Unit := mkUnit "b" .enemy shieldEmoji ⟨3, 1⟩ 50

/-- Witness for C5: a generic shieldbearer-into-shieldbearer chain on an
all-plains 8×8 grid; the struck unit survives its secondary knockback to
`(5,1)`. -/
theorem generic_bash_collision_swap_and_secondary_knockback_witness :
    (bashPath w5hero w5t).find?
        (bashCollides (flatLevel 8) w5t.id [w5hero, w5t, w5b]) = some ⟨3, 1⟩ ∧
    ((executeShieldBash (flatLevel 8) w5hero w5t [w5hero, w5t, w5b]).endedTurn
        = true ∧
      (1 < w5t.hp → bashedStunned w5t w5b.position ∈
        (executeShieldBash (flatLevel 8) w5hero w5t [w5hero, w5t, w5b]).units) ∧
      ((¬ inBounds (flatLevel 8) (bashSecondaryPos w5hero w5t ⟨3, 1⟩) ∨
          (flatLevel 8).mapSetup (bashSecondaryPos w5hero w5t ⟨3, 1⟩).x
            (bashSecondaryPos w5hero w5t ⟨3, 1⟩).y = .water) →
        ∀ u ∈ (executeShieldBash (flatLevel 8) w5hero w5t
            [w5hero, w5t, w5b]).units, u.id ≠ w5b.id) ∧
      (inBounds (flatLevel 8) (bashSecondaryPos w5hero w5t ⟨3, 1⟩) →
        (flatLevel 8).mapSetup (bashSecondaryPos w5hero w5t ⟨3, 1⟩).x
          (bashSecondaryPos w5hero w5t ⟨3, 1⟩).y ≠ .water →
        1 < w5b.hp →
        knockedBack w5b (bashSecondaryPos w5hero w5t ⟨3, 1⟩) ∈
          (executeShieldBash (flatLevel 8) w5hero w5t
            [w5hero, w5t, w5b]).units)) :=
  ⟨by decide,
   @generic_bash_collision_swap_and_secondary_knockback (flatLevel 8) w5hero
     w5t [w5hero, w5t, w5b] 1 2 w5t w5b ⟨3, 1⟩ (by decide) (by decide)
     (by decide) (by decide) (by decide) (by decide) (by decide) (by decide)
     (by decide) (by decide) (by decide)⟩

def w2hero : Tactics.Unit := mkUnit "hero" .player shieldEmoji ⟨1, 1⟩ 1
def w2t : Tactics.Unit := mkUnit "t" .enemy shieldEmoji ⟨2, 1⟩ 50
def w2bhero : Tactics.Unit := mkUnit "hero" .player shieldEmoji ⟨4, 5⟩ 1
def w2bsb : Tactics.Unit := mkUnit "sb" .enemy shieldEmoji ⟨5, 5⟩ 50

/-- Witness for the amended C2 theorem, exercising both parts: a push off
the east edge of a 4×4 grid eliminates the target, and a first-collision
mountain at `(6,5)` stops the target there, stunned. -/
theorem bash_bounds_checked_before_path_scan_witness :
    (¬ inBounds (flatLevel 4) (bashPushPos w2hero w2t) ∧
      ((executeShieldBash (flatLevel 4) w2hero w2t [w2hero, w2t]).units
          = keepAlive ([w2hero, w2t].eraseIdx 1) ∧
        (executeShieldBash (flatLevel 4) w2hero w2t [w2hero, w2t]).endedTurn
          = false ∧
        ∀ u ∈ (executeShieldBash (flatLevel 4) w2hero w2t [w2hero, w2t]).units,
          u.id ≠ w2t.id)) ∧
    (mountainAt65.mapSetup 6 5 = .mountain ∧
      ((executeShieldBash mountainAt65 w2bhero w2bsb
          [w2bhero, w2bsb]).endedTurn = true ∧
        (1 < w2bsb.hp → bashedStunned w2bsb ⟨6, 5⟩ ∈
          (executeShieldBash mountainAt65 w2bhero w2bsb
            [w2bhero, w2bsb]).units))) :=
  ⟨⟨by decide,
    (@bash_bounds_checked_before_path_scan (flatLevel 4) w2hero w2t
      [w2hero, w2t] 1 w2t (by decide) (by decide) (by decide) (by decide)).1
      (by decide)⟩,
   ⟨by decide,
    (@bash_bounds_checked_before_path_scan mountainAt65 w2bhero w2bsb
      [w2bhero, w2bsb] 1 w2bsb (by decide) (by decide) (by decide)
      (by decide)).2 ⟨6, 5⟩ (by decide) (by decide) (by decide)⟩⟩

/-!
## Claim C10
-/

/-- Spec-side eligibility of an enemy in the attack pass: its *final*
(post-movement) position is within its attack range of the player and has
line of sight — the range check is decoupled from the pre-movement
position. -/
def canHitPlayer (lvl : LevelData) (player : Tactics.Unit)
    (newUnits : List Tactics.Unit) (e : Tactics.Unit) : Prop :=
  mdist (postMove newUnits e).position player.position
      ≤ (postMove newUnits e).attackRange ∧
    hasLineOfSight lvl (postMove newUnits e).position player.position = true

instance (lvl : LevelData) (player : Tactics.Unit) (newUnits : List Tactics.Unit)
    (e : Tactics.Unit) : Decidable (canHitPlayer lvl player newUnits e) := by
  unfold canHitPlayer; infer_instance

/-- Spec-side accumulated damage of one enemy phase: the sum, over the
non-stunned enemies of the sorted snapshot that can hit the player from
their post-movement positions, of their damage values. -/
def phaseDamage (lvl : LevelData) (player : Tactics.Unit)
    (newUnits : List Tactics.Unit) (enemies : List Tactics.Unit) : Int :=
  ((enemies.filter (fun e =>
      decide (e.stunned = false ∧ canHitPlayer lvl player newUnits e))).map
    (fun e => (postMove newUnits e).damage)).sum

/-- Spec-side description of writing the accumulated HP pool back into the
player unit (the final `map` of the enemy phase, line 702). -/
def setPlayerHp (hp : Int) (us : List Tactics.Unit) : List Tactics.Unit :=
  us.map (fun u => if u.team = Team.player then { u with hp := hp } else u)

/-- The attack-pass fold equals the player's HP minus the accumulated
damage of all eligible enemies: damage accumulates before being applied. -/
lemma aiAttackPhase_eq_sub_phaseDamage (lvl : LevelData) (player : Tactics.Unit)
    (newUnits : List Tactics.Unit) (enemies : List Tactics.Unit) :
    aiAttackPhase lvl player newUnits enemies
      = player.hp - phaseDamage lvl player newUnits enemies := by
  unfold aiAttackPhase phaseDamage
  have main : ∀ (l : List Tactics.Unit) (init : Int),
      l.foldl (fun playerHp enemy =>
        if enemy.stunned then playerHp
        else
          if mdist (postMove newUnits enemy).position player.position
              ≤ (postMove newUnits enemy).attackRange
            ∧ hasLineOfSight lvl (postMove newUnits enemy).position
                player.position = true then
            playerHp - (postMove newUnits enemy).damage
          else playerHp) init
      = init - ((l.filter (fun e =>
          decide (e.stunned = false ∧ canHitPlayer lvl player newUnits e))).map
        (fun e => (postMove newUnits e).damage)).sum := by
    intro l
    induction l with
    | nil => intro init; simp
    | cons e l ih =>
      intro init
      rw [List.foldl_cons, List.filter_cons]
      by_cases hst : e.stunned
      · rw [if_pos hst]
        rw [if_neg (by simp [hst])]
        exact ih init
      · rw [if_neg hst]
        by_cases hc : canHitPlayer lvl player newUnits e
        · have hc' := hc
          unfold canHitPlayer at hc'
          rw [if_pos hc']
          rw [if_pos (by simp [hst, hc])]
          rw [List.map_cons, List.sum_cons, ih]
          ring
        · have hc' : ¬ (mdist (postMove newUnits e).position player.position
              ≤ (postMove newUnits e).attackRange
              ∧ hasLineOfSight lvl (postMove newUnits e).position
                  player.position = true) := fun h => hc h
          rw [if_neg hc']
          rw [if_neg (by simp [hst, hc])]
          exact ih init
  exact main enemies player.hp

instance (p : Tactics.Unit) : IsTotal Tactics.Unit (closerToPlayer p) :=
  ⟨by intro a b; unfold closerToPlayer; exact Nat.le_total _ _⟩

instance (p : Tactics.Unit) : IsTrans Tactics.Unit (closerToPlayer p) :=
  ⟨by intro a b c; unfold closerToPlayer; exact Nat.le_trans⟩

/-- **C10**.  In every enemy phase (with a player unit and at least one
enemy), the snapshot is sorted ascending by Manhattan distance to the
player, computed once; all enemy movement resolves to completion
(`aiMovePhase` over the sorted snapshot) before any attack is evaluated;
the attack pass processes the same sorted snapshot, its eligibility checks
reading post-movement positions; and the damage of all eligible enemies
accumulates into the player's HP pool before the `hp ≤ 0` removal filter
runs. -/
theorem enemy_phase_two_pass_structure (lvl : LevelData)
    (units : List Tactics.Unit) (player : Tactics.Unit)
    (hplayer : units.find? (fun u => decide (u.team = Team.player)) = some player)
    (hne : (units.filter (fun u => decide (u.team = Team.enemy))).isEmpty = false) :
    List.Sorted (closerToPlayer player) (sortedEnemies player units) ∧
    enemyPhaseUnits lvl units =
      keepAlive (setPlayerHp
        (player.hp - phaseDamage lvl player
          (aiMovePhase lvl player units (sortedEnemies player units))
          (sortedEnemies player units))
        (aiMovePhase lvl player units (sortedEnemies player units))) := by
  constructor
  · unfold sortedEnemies
    exact List.sorted_insertionSort (closerToPlayer player) _
  · simp only [enemyPhaseUnits, setPlayerHp, hplayer, hne, Bool.false_eq_true,
      if_false, ite_false, sortedEnemies, aiAttackPhase_eq_sub_phaseDamage]

def w10hero : Tactics.Unit :=
  { mkUnit "hero" .player shieldEmoji ⟨2, 2⟩ 10 with damage := 5 }
def w10e1 : Tactics.Unit :=
  { mkUnit "e1" .enemy archerEmoji ⟨0, 2⟩ 4 with attackRange := 2, damage := 4 }
def w10e2 : Tactics.Unit :=
  { mkUnit "e2" .enemy shieldEmoji ⟨4, 2⟩ 8 with attackRange := 1, damage := 1 }

/-- Witness for C10 on a concrete 5×5 phase: an archer already in range and
a shieldbearer that must move first; the phase equals the two-pass
decomposition and the snapshot is distance-sorted. -/
theorem enemy_phase_two_pass_structure_witness :
    [w10hero, w10e1, w10e2].find? (fun u => decide (u.team = Team.player))
      = some w10hero ∧
    (List.Sorted (closerToPlayer w10hero)
        (sortedEnemies w10hero [w10hero, w10e1, w10e2]) ∧
      enemyPhaseUnits (flatLevel 5) [w10hero, w10e1, w10e2] =
        keepAlive (setPlayerHp
          (w10hero.hp - phaseDamage (flatLevel 5) w10hero
            (aiMovePhase (flatLevel 5) w10hero [w10hero, w10e1, w10e2]
              (sortedEnemies w10hero [w10hero, w10e1, w10e2]))
            (sortedEnemies w10hero [w10hero, w10e1, w10e2]))
          (aiMovePhase (flatLevel 5) w10hero [w10hero, w10e1, w10e2]
            (sortedEnemies w10hero [w10hero, w10e1, w10e2])))) :=
  ⟨by decide,
   enemy_phase_two_pass_structure (flatLevel 5) [w10hero, w10e1, w10e2] w10hero
     (by decide) (by decide)⟩

/-!
## Claim C7: Bresenham trace characterizations on aligned lines

For a purely horizontal, purely vertical, or exactly diagonal line the loop
state is periodic (the error term is invariant across iterations), which
yields a closed characterization: the trace is clear iff no strictly
intermediate cell is a mountain.  `r` counts the remaining steps; the
current cell is `start + sign·(n − r)` componentwise. -/

lemma losLoopRow (lvl : LevelData) (y sx sy n x0 : Int)
    (hsx : sx = 1 ∨ sx = -1) (hn : 0 < n) :
    ∀ (fuel : Nat) (r : Int), 0 ≤ r → r ≤ n → r.toNat < fuel →
    (losLoop lvl x0 y (x0 + sx * n) y n 0 sx sy fuel (x0 + sx * (n - r)) y n
        = true ↔
      ∀ j : Int, n - r ≤ j → j < n → 0 < j →
        lvl.mapSetup (x0 + sx * j) y ≠ .mountain) := by
  intro fuel
  induction fuel with
  | zero => intro r h0 h1 h2; omega
  | succ fuel ih =>
    intro r h0 h1 h2
    simp only [losLoop]
    by_cases hr0 : r = 0
    · subst hr0
      rw [if_pos ⟨by ring_nf, trivial⟩]
      constructor
      · intro _ j hj1 hj2 hj3
        omega
      · intro _
        rfl
    · rw [if_neg (by
        rintro ⟨hx, _⟩
        rcases hsx with h | h <;> subst h <;> omega)]
      have hgt : 2 * n > -(0 : Int) := by omega
      have hlt : ¬ (2 * n < n) := by omega
      have harg : x0 + sx * (n - r) + sx = x0 + sx * (n - (r - 1)) := by ring
      have hsub : n - (0 : Int) = n := by ring
      by_cases hrn : r = n
      · rw [if_neg (by
          rintro ⟨hne, _⟩
          refine hne ⟨?_, trivial⟩
          rw [hrn]
          ring_nf)]
        rw [if_pos hgt, if_neg hlt, if_pos hgt, if_neg hlt, harg, hsub]
        rw [ih (r - 1) (by omega) (by omega) (by omega)]
        constructor
        · intro h j hj1 hj2 hj3
          exact h j (by omega) hj2 hj3
        · intro h j hj1 hj2 hj3
          exact h j (by omega) hj2 hj3
      · by_cases hcur : lvl.mapSetup (x0 + sx * (n - r)) y = .mountain
        · rw [if_pos (⟨by
            rintro ⟨hx, _⟩
            rcases hsx with h | h <;> subst h <;> omega, hcur⟩ :
            ¬ _ ∧ _)]
          constructor
          · intro h
            exact absurd h (by simp)
          · intro h
            exact absurd hcur (h (n - r) (le_refl _) (by omega) (by omega))
        · rw [if_neg (by rintro ⟨_, hm⟩; exact hcur hm)]
          rw [if_pos hgt, if_neg hlt, if_pos hgt, if_neg hlt, harg, hsub]
          rw [ih (r - 1) (by omega) (by omega) (by omega)]
          constructor
          · intro h j hj1 hj2 hj3
            by_cases hj : j = n - r
            · subst hj
              exact hcur
            · exact h j (by omega) hj2 hj3
          · intro h j hj1 hj2 hj3
            exact h j (by omega) hj2 hj3

lemma losLoopCol (lvl : LevelData) (x sx sy n y0 : Int)
    (hsy : sy = 1 ∨ sy = -1) (hn : 0 < n) :
    ∀ (fuel : Nat) (r : Int), 0 ≤ r → r ≤ n → r.toNat < fuel →
    (losLoop lvl x y0 x (y0 + sy * n) 0 n sx sy fuel x (y0 + sy * (n - r)) (-n)
        = true ↔
      ∀ j : Int, n - r ≤ j → j < n → 0 < j →
        lvl.mapSetup x (y0 + sy * j) ≠ .mountain) := by
  intro fuel
  induction fuel with
  | zero => intro r h0 h1 h2; omega
  | succ fuel ih =>
    intro r h0 h1 h2
    simp only [losLoop]
    by_cases hr0 : r = 0
    · subst hr0
      rw [if_pos ⟨trivial, by ring_nf⟩]
      constructor
      · intro _ j hj1 hj2 hj3
        omega
      · intro _
        rfl
    · rw [if_neg (by
        rintro ⟨_, hy⟩
        rcases hsy with h | h <;> subst h <;> omega)]
      have hgt : ¬ (2 * -n > -n) := by omega
      have hlt : 2 * -n < (0 : Int) := by omega
      have harg : y0 + sy * (n - r) + sy = y0 + sy * (n - (r - 1)) := by ring
      have hsub : -n + (0 : Int) = -n := by ring
      by_cases hrn : r = n
      · rw [if_neg (by
          rintro ⟨hne, _⟩
          refine hne ⟨trivial, ?_⟩
          rw [hrn]
          ring_nf)]
        rw [if_neg hgt, if_pos hlt, if_neg hgt, if_pos hlt, harg, hsub]
        rw [ih (r - 1) (by omega) (by omega) (by omega)]
        constructor
        · intro h j hj1 hj2 hj3
          exact h j (by omega) hj2 hj3
        · intro h j hj1 hj2 hj3
          exact h j (by omega) hj2 hj3
      · by_cases hcur : lvl.mapSetup x (y0 + sy * (n - r)) = .mountain
        · rw [if_pos (⟨by
            rintro ⟨_, hy⟩
            rcases hsy with h | h <;> subst h <;> omega, hcur⟩ :
            ¬ _ ∧ _)]
          constructor
          · intro h
            exact absurd h (by simp)
          · intro h
            exact absurd hcur (h (n - r) (le_refl _) (by omega) (by omega))
        · rw [if_neg (by rintro ⟨_, hm⟩; exact hcur hm)]
          rw [if_neg hgt, if_pos hlt, if_neg hgt, if_pos hlt, harg, hsub]
          rw [ih (r - 1) (by omega) (by omega) (by omega)]
          constructor
          · intro h j hj1 hj2 hj3
            by_cases hj : j = n - r
            · subst hj
              exact hcur
            · exact h j (by omega) hj2 hj3
          · intro h j hj1 hj2 hj3
            exact h j (by omega) hj2 hj3

lemma losLoopDiag (lvl : LevelData) (x0 y0 sx sy n : Int)
    (hsx : sx = 1 ∨ sx = -1) (_hsy : sy = 1 ∨ sy = -1) (hn : 0 < n) :
    ∀ (fuel : Nat) (r : Int), 0 ≤ r → r ≤ n → r.toNat < fuel →
    (losLoop lvl x0 y0 (x0 + sx * n) (y0 + sy * n) n n sx sy fuel
        (x0 + sx * (n - r)) (y0 + sy * (n - r)) 0 = true ↔
      ∀ j : Int, n - r ≤ j → j < n → 0 < j →
        lvl.mapSetup (x0 + sx * j) (y0 + sy * j) ≠ .mountain) := by
  intro fuel
  induction fuel with
  | zero => intro r h0 h1 h2; omega
  | succ fuel ih =>
    intro r h0 h1 h2
    simp only [losLoop]
    by_cases hr0 : r = 0
    · subst hr0
      rw [if_pos ⟨by ring_nf, by ring_nf⟩]
      constructor
      · intro _ j hj1 hj2 hj3
        omega
      · intro _
        rfl
    · rw [if_neg (by
        rintro ⟨hx, _⟩
        rcases hsx with h | h <;> subst h <;> omega)]
      have hgt : 2 * (0 : Int) > -n := by omega
      have hlt : 2 * (0 : Int) < n := by omega
      have hargx : x0 + sx * (n - r) + sx = x0 + sx * (n - (r - 1)) := by ring
      have hargy : y0 + sy * (n - r) + sy = y0 + sy * (n - (r - 1)) := by ring
      have hsub : (0 : Int) - n + n = 0 := by ring
      by_cases hrn : r = n
      · rw [if_neg (by
          rintro ⟨hne, _⟩
          refine hne ⟨?_, ?_⟩ <;> (rw [hrn]; ring_nf))]
        rw [if_pos hgt, if_pos hlt, if_pos hgt, if_pos hlt, hargx, hargy, hsub]
        rw [ih (r - 1) (by omega) (by omega) (by omega)]
        constructor
        · intro h j hj1 hj2 hj3
          exact h j (by omega) hj2 hj3
        · intro h j hj1 hj2 hj3
          exact h j (by omega) hj2 hj3
      · by_cases hcur : lvl.mapSetup (x0 + sx * (n - r)) (y0 + sy * (n - r))
            = .mountain
        · rw [if_pos (⟨by
            rintro ⟨hx, _⟩
            rcases hsx with h | h <;> subst h <;> omega, hcur⟩ :
            ¬ _ ∧ _)]
          constructor
          · intro h
            exact absurd h (by simp)
          · intro h
            exact absurd hcur (h (n - r) (le_refl _) (by omega) (by omega))
        · rw [if_neg (by rintro ⟨_, hm⟩; exact hcur hm)]
          rw [if_pos hgt, if_pos hlt, if_pos hgt, if_pos hlt, hargx, hargy, hsub]
          rw [ih (r - 1) (by omega) (by omega) (by omega)]
          constructor
          · intro h j hj1 hj2 hj3
            by_cases hj : j = n - r
            · subst hj
              exact hcur
            · exact h j (by omega) hj2 hj3
          · intro h j hj1 hj2 hj3
            exact h j (by omega) hj2 hj3

lemma hasLineOfSight_row_pos (lvl : LevelData) (a : Position) (n : Int)
    (hn : 0 < n) :
    (hasLineOfSight lvl a ⟨a.x + n, a.y⟩ = true ↔
      ∀ j : Int, 0 < j → j < n → lvl.mapSetup (a.x + j) a.y ≠ .mountain) := by
  have key := losLoopRow lvl a.y 1 (-1) n a.x (Or.inl rfl) hn (n.toNat + 1) n
    (by omega) (le_refl n) (by omega)
  have hcell : ∀ j : Int, a.x + 1 * j = a.x + j := fun j => by ring
  have k1 : a.x + 1 * n = a.x + n := by ring
  have k2 : a.x + 1 * (n - n) = a.x := by ring
  rw [k1, k2] at key
  simp only [hcell] at key
  simp only [hasLineOfSight]
  rw [if_pos (by omega : a.x < a.x + n), if_neg (by omega : ¬ a.y < a.y)]
  have e1 : ((a.x + n - a.x).natAbs : Int) = n := by omega
  have e2 : ((a.y - a.y).natAbs : Int) = 0 := by omega
  rw [e1, e2]
  have e3 : n.natAbs + ((0 : Int)).natAbs + 1 = n.toNat + 1 := by omega
  have e4 : n - (0 : Int) = n := by ring
  rw [e3, e4]
  rw [key]
  constructor
  · intro h j hj1 hj2
    exact h j (by omega) hj2 hj1
  · intro h j hj1 hj2 hj3
    exact h j hj3 hj2

lemma hasLineOfSight_row_neg (lvl : LevelData) (a : Position) (n : Int)
    (hn : 0 < n) :
    (hasLineOfSight lvl a ⟨a.x - n, a.y⟩ = true ↔
      ∀ j : Int, 0 < j → j < n → lvl.mapSetup (a.x - j) a.y ≠ .mountain) := by
  have key := losLoopRow lvl a.y (-1) (-1) n a.x (Or.inr rfl) hn (n.toNat + 1) n
    (by omega) (le_refl n) (by omega)
  have hcell : ∀ j : Int, a.x + (-1) * j = a.x - j := fun j => by ring
  have k1 : a.x + (-1) * n = a.x - n := by ring
  have k2 : a.x + (-1) * (n - n) = a.x := by ring
  rw [k1, k2] at key
  simp only [hcell] at key
  simp only [hasLineOfSight]
  rw [if_neg (by omega : ¬ a.x < a.x - n), if_neg (by omega : ¬ a.y < a.y)]
  have e1 : ((a.x - n - a.x).natAbs : Int) = n := by omega
  have e2 : ((a.y - a.y).natAbs : Int) = 0 := by omega
  rw [e1, e2]
  have e3 : n.natAbs + ((0 : Int)).natAbs + 1 = n.toNat + 1 := by omega
  have e4 : n - (0 : Int) = n := by ring
  rw [e3, e4]
  rw [key]
  constructor
  · intro h j hj1 hj2
    exact h j (by omega) hj2 hj1
  · intro h j hj1 hj2 hj3
    exact h j hj3 hj2

lemma hasLineOfSight_col_pos (lvl : LevelData) (a : Position) (n : Int)
    (hn : 0 < n) :
    (hasLineOfSight lvl a ⟨a.x, a.y + n⟩ = true ↔
      ∀ j : Int, 0 < j → j < n → lvl.mapSetup a.x (a.y + j) ≠ .mountain) := by
  have key := losLoopCol lvl a.x (-1) 1 n a.y (Or.inl rfl) hn (n.toNat + 1) n
    (by omega) (le_refl n) (by omega)
  have hcell : ∀ j : Int, a.y + 1 * j = a.y + j := fun j => by ring
  have k1 : a.y + 1 * n = a.y + n := by ring
  have k2 : a.y + 1 * (n - n) = a.y := by ring
  rw [k1, k2] at key
  simp only [hcell] at key
  simp only [hasLineOfSight]
  rw [if_neg (by omega : ¬ a.x < a.x), if_pos (by omega : a.y < a.y + n)]
  have e1 : ((a.x - a.x).natAbs : Int) = 0 := by omega
  have e2 : ((a.y + n - a.y).natAbs : Int) = n := by omega
  rw [e1, e2]
  have e3 : ((0 : Int)).natAbs + n.natAbs + 1 = n.toNat + 1 := by omega
  have e4 : (0 : Int) - n = -n := by ring
  rw [e3, e4]
  rw [key]
  constructor
  · intro h j hj1 hj2
    exact h j (by omega) hj2 hj1
  · intro h j hj1 hj2 hj3
    exact h j hj3 hj2

lemma hasLineOfSight_col_neg (lvl : LevelData) (a : Position) (n : Int)
    (hn : 0 < n) :
    (hasLineOfSight lvl a ⟨a.x, a.y - n⟩ = true ↔
      ∀ j : Int, 0 < j → j < n → lvl.mapSetup a.x (a.y - j) ≠ .mountain) := by
  have key := losLoopCol lvl a.x (-1) (-1) n a.y (Or.inr rfl) hn (n.toNat + 1) n
    (by omega) (le_refl n) (by omega)
  have hcell : ∀ j : Int, a.y + (-1) * j = a.y - j := fun j => by ring
  have k1 : a.y + (-1) * n = a.y - n := by ring
  have k2 : a.y + (-1) * (n - n) = a.y := by ring
  rw [k1, k2] at key
  simp only [hcell] at key
  simp only [hasLineOfSight]
  rw [if_neg (by omega : ¬ a.x < a.x), if_neg (by omega : ¬ a.y < a.y - n)]
  have e1 : ((a.x - a.x).natAbs : Int) = 0 := by omega
  have e2 : ((a.y - n - a.y).natAbs : Int) = n := by omega
  rw [e1, e2]
  have e3 : ((0 : Int)).natAbs + n.natAbs + 1 = n.toNat + 1 := by omega
  have e4 : (0 : Int) - n = -n := by ring
  rw [e3, e4]
  rw [key]
  constructor
  · intro h j hj1 hj2
    exact h j (by omega) hj2 hj1
  · intro h j hj1 hj2 hj3
    exact h j hj3 hj2

lemma hasLineOfSight_diag (lvl : LevelData) (a : Position) (sx sy n : Int)
    (hsx : sx = 1 ∨ sx = -1) (hsy : sy = 1 ∨ sy = -1) (hn : 0 < n) :
    (hasLineOfSight lvl a ⟨a.x + sx * n, a.y + sy * n⟩ = true ↔
      ∀ j : Int, 0 < j → j < n →
        lvl.mapSetup (a.x + sx * j) (a.y + sy * j) ≠ .mountain) := by
  have key := losLoopDiag lvl a.x a.y sx sy n hsx hsy hn (n.toNat + n.toNat + 1) n
    (by omega) (le_refl n) (by omega)
  have k1 : a.x + sx * (n - n) = a.x := by ring
  have k2 : a.y + sy * (n - n) = a.y := by ring
  rw [k1, k2] at key
  simp only [hasLineOfSight]
  have esx : (if a.x < a.x + sx * n then (1 : Int) else -1) = sx := by
    rcases hsx with h | h <;> subst h
    · rw [if_pos (by omega)]
    · rw [if_neg (by omega)]
  have esy : (if a.y < a.y + sy * n then (1 : Int) else -1) = sy := by
    rcases hsy with h | h <;> subst h
    · rw [if_pos (by omega)]
    · rw [if_neg (by omega)]
  rw [esx, esy]
  have e1 : ((a.x + sx * n - a.x).natAbs : Int) = n := by
    rcases hsx with h | h <;> subst h <;> omega
  have e2 : ((a.y + sy * n - a.y).natAbs : Int) = n := by
    rcases hsy with h | h <;> subst h <;> omega
  rw [e1, e2]
  have e3 : n.natAbs + n.natAbs + 1 = n.toNat + n.toNat + 1 := by omega
  have e4 : n - n = (0 : Int) := by ring
  rw [e3, e4]
  rw [key]
  constructor
  · intro h j hj1 hj2
    exact h j (by omega) hj2 hj1
  · intro h j hj1 hj2 hj3
    exact h j hj3 hj2

/-- **C7** counterexample.  On the shipped level-1 grid the Bresenham trace
is direction-dependent: from `(1,6)` to `(3,7)` the traced intermediate cell
is the mountain at `(2,6)`, while the reverse trace passes through the plain
cell `(2,7)` — so `hasLineOfSight` differs between the two directions. -/
theorem hasLineOfSight_asymmetric_on_level1 :
    hasLineOfSight level1 ⟨1, 6⟩ ⟨3, 7⟩ = false ∧
    hasLineOfSight level1 ⟨3, 7⟩ ⟨1, 6⟩ = true := by
  decide

/-- **C7** (amended).  `hasLineOfSight(a,b) = hasLineOfSight(b,a)` holds for
every pair of cells that is axis-aligned (same row or same column) or
exactly diagonal (`|Δx| = |Δy|`) — which covers every pair within the
attack ranges used by the game; for other pairs the integer tie-breaking of
the line trace can check different intermediate cells in the two directions
and symmetry can fail. -/
theorem hasLineOfSight_symmetric_on_aligned_pairs (lvl : LevelData)
    (a b : Position)
    (h : a.x = b.x ∨ a.y = b.y ∨ (b.x - a.x).natAbs = (b.y - a.y).natAbs) :
    hasLineOfSight lvl a b = hasLineOfSight lvl b a := by
  obtain ⟨ax, ay⟩ := a
  obtain ⟨bx, by'⟩ := b
  dsimp only at h ⊢
  rcases h with hx | hy | hd
  · subst hx
    rcases lt_trichotomy ay by' with hy | hy | hy
    · have h1 := hasLineOfSight_col_pos lvl ⟨ax, ay⟩ (by' - ay) (by omega)
      have h2 := hasLineOfSight_col_neg lvl ⟨ax, by'⟩ (by' - ay) (by omega)
      dsimp only at h1 h2
      rw [show ay + (by' - ay) = by' from by ring] at h1
      rw [show by' - (by' - ay) = ay from by ring] at h2
      apply Bool.coe_iff_coe.mp
      rw [h1, h2]
      constructor
      · intro hson j hj1 hj2
        have hm := hson (by' - ay - j) (by omega) (by omega)
        rw [show ay + (by' - ay - j) = by' - j from by ring] at hm
        exact hm
      · intro hson j hj1 hj2
        have hm := hson (by' - ay - j) (by omega) (by omega)
        rw [show by' - (by' - ay - j) = ay + j from by ring] at hm
        exact hm
    · subst hy
      rfl
    · have h1 := hasLineOfSight_col_neg lvl ⟨ax, ay⟩ (ay - by') (by omega)
      have h2 := hasLineOfSight_col_pos lvl ⟨ax, by'⟩ (ay - by') (by omega)
      dsimp only at h1 h2
      rw [show ay - (ay - by') = by' from by ring] at h1
      rw [show by' + (ay - by') = ay from by ring] at h2
      apply Bool.coe_iff_coe.mp
      rw [h1, h2]
      constructor
      · intro hson j hj1 hj2
        have hm := hson (ay - by' - j) (by omega) (by omega)
        rw [show ay - (ay - by' - j) = by' + j from by ring] at hm
        exact hm
      · intro hson j hj1 hj2
        have hm := hson (ay - by' - j) (by omega) (by omega)
        rw [show by' + (ay - by' - j) = ay - j from by ring] at hm
        exact hm
  · subst hy
    rcases lt_trichotomy ax bx with hx | hx | hx
    · have h1 := hasLineOfSight_row_pos lvl ⟨ax, ay⟩ (bx - ax) (by omega)
      have h2 := hasLineOfSight_row_neg lvl ⟨bx, ay⟩ (bx - ax) (by omega)
      dsimp only at h1 h2
      rw [show ax + (bx - ax) = bx from by ring] at h1
      rw [show bx - (bx - ax) = ax from by ring] at h2
      apply Bool.coe_iff_coe.mp
      rw [h1, h2]
      constructor
      · intro hson j hj1 hj2
        have hm := hson (bx - ax - j) (by omega) (by omega)
        rw [show ax + (bx - ax - j) = bx - j from by ring] at hm
        exact hm
      · intro hson j hj1 hj2
        have hm := hson (bx - ax - j) (by omega) (by omega)
        rw [show bx - (bx - ax - j) = ax + j from by ring] at hm
        exact hm
    · subst hx
      rfl
    · have h1 := hasLineOfSight_row_neg lvl ⟨ax, ay⟩ (ax - bx) (by omega)
      have h2 := hasLineOfSight_row_pos lvl ⟨bx, ay⟩ (ax - bx) (by omega)
      dsimp only at h1 h2
      rw [show ax - (ax - bx) = bx from by ring] at h1
      rw [show bx + (ax - bx) = ax from by ring] at h2
      apply Bool.coe_iff_coe.mp
      rw [h1, h2]
      constructor
      · intro hson j hj1 hj2
        have hm := hson (ax - bx - j) (by omega) (by omega)
        rw [show ax - (ax - bx - j) = bx + j from by ring] at hm
        exact hm
      · intro hson j hj1 hj2
        have hm := hson (ax - bx - j) (by omega) (by omega)
        rw [show bx + (ax - bx - j) = ax - j from by ring] at hm
        exact hm
  · by_cases hx0 : ax = bx
    · have hy0 : ay = by' := by omega
      subst hx0
      subst hy0
      rfl
    · obtain ⟨n, hn, hbxor, hbyor⟩ : ∃ n : Int, 0 < n ∧
          (bx = ax + n ∨ bx = ax - n) ∧ (by' = ay + n ∨ by' = ay - n) :=
        ⟨((bx - ax).natAbs : Int), by omega, by omega, by omega⟩
      obtain ⟨sx, hsx, hbx⟩ : ∃ sx : Int, (sx = 1 ∨ sx = -1) ∧
          bx = ax + sx * n := by
        rcases hbxor with h | h
        · exact ⟨1, Or.inl rfl, by omega⟩
        · exact ⟨-1, Or.inr rfl, by omega⟩
      obtain ⟨sy, hsy, hby⟩ : ∃ sy : Int, (sy = 1 ∨ sy = -1) ∧
          by' = ay + sy * n := by
        rcases hbyor with h | h
        · exact ⟨1, Or.inl rfl, by omega⟩
        · exact ⟨-1, Or.inr rfl, by omega⟩
      have h1 := hasLineOfSight_diag lvl ⟨ax, ay⟩ sx sy n hsx hsy hn
      dsimp only at h1
      rw [← hbx, ← hby] at h1
      have hsx' : -sx = 1 ∨ -sx = -1 := by
        rcases hsx with h | h <;> subst h <;> norm_num
      have hsy' : -sy = 1 ∨ -sy = -1 := by
        rcases hsy with h | h <;> subst h <;> norm_num
      have h2 := hasLineOfSight_diag lvl ⟨bx, by'⟩ (-sx) (-sy) n hsx' hsy' hn
      dsimp only at h2
      rw [show bx + -sx * n = ax from by rw [hbx]; ring,
        show by' + -sy * n = ay from by rw [hby]; ring] at h2
      apply Bool.coe_iff_coe.mp
      rw [h1, h2]
      constructor
      · intro hson j hj1 hj2
        have hm := hson (n - j) (by omega) (by omega)
        rw [show ax + sx * (n - j) = bx + -sx * j from by rw [hbx]; ring,
          show ay + sy * (n - j) = by' + -sy * j from by rw [hby]; ring] at hm
        exact hm
      · intro hson j hj1 hj2
        have hm := hson (n - j) (by omega) (by omega)
        rw [show bx + -sx * (n - j) = ax + sx * j from by rw [hbx]; ring,
          show by' + -sy * (n - j) = ay + sy * j from by rw [hby]; ring] at hm
        exact hm

/-- Witness for the amended C7 theorem, at a concrete aligned pair of
level 1: the horizontal pair `(1,6)`–`(5,6)` (whose trace crosses the
mountains at `(2,6)`, `(4,6)`) is blocked identically in both directions. -/
theorem hasLineOfSight_symmetric_on_aligned_pairs_witness :
    ((⟨1, 6⟩ : Position).x = (⟨5, 6⟩ : Position).x ∨
      (⟨1, 6⟩ : Position).y = (⟨5, 6⟩ : Position).y ∨
      ((5 : Int) - 1).natAbs = ((6 : Int) - 6).natAbs) ∧
    hasLineOfSight level1 ⟨1, 6⟩ ⟨5, 6⟩ = hasLineOfSight level1 ⟨5, 6⟩ ⟨1, 6⟩ :=
  ⟨by decide,
   hasLineOfSight_symmetric_on_aligned_pairs level1 ⟨1, 6⟩ ⟨5, 6⟩ (by decide)⟩

end Tactics
